import Mathlib

/-
Verification development for the editing core of the `bed` hex editor:
the piece-table buffer, the snapshot history, and the window event loop
(`window/window.go`).  The buffer and history implementations are not part
of the covered sources (only `buffer/buffer_test.go` is), so those two
components are modelled from the design specification; the window state
machine is translated directly from `window/window.go`.
-/

namespace Bed

/-- Modelled from the spec: the source of a run-reference is either the
original read-seekable byte source or an owned in-memory byte vector
(spec section 3, "Run-reference"). -/
inductive RRSource where
  | original : RRSource
  | inMemory : List Nat → RRSource
  deriving DecidableEq, Repr

/-- Modelled from the spec: a run-reference maps the half-open output range
`[min, max)` to a source, with `source_index = output_index + diff`
(spec section 3). -/
structure RR where
  min : Int
  max : Int
  src : RRSource
  diff : Int
  deriving DecidableEq, Repr

/-- Modelled from the spec: a piece-table buffer is an ordered sequence of
run-references over a base byte source (spec section 3, "Buffer"); the
base source is kept as the byte list it provides. -/
structure Buffer where
  srcBytes : List Nat
  rrs : List RR
  deriving DecidableEq, Repr

/-- Modelled from the spec: the output position one past the last run,
`lo` if the list is empty.  Since each step discards `lo`, for a nonempty
list this is exactly the last run's `max`. -/
def endOf : Int → List RR → Int
  | lo, [] => lo
  | _, r :: rest => endOf r.max rest

/-- Modelled from the spec: `len()` is the last run's `max`, or 0 if the
run list is empty (spec section 4.1). -/
def Buffer.len (b : Buffer) : Int :=
  endOf 0 b.rrs

/-- Modelled from the spec: a fresh buffer is a single Original run
spanning `[0, sourceLen)` (spec section 3, "Lifecycle"). -/
def Buffer.fromList (bs : List Nat) : Buffer :=
  ⟨bs, [⟨0, (bs.length : Int), .original, 0⟩]⟩

/-- Modelled from the spec: reading one byte at output offset `o`: find the
run whose `[min, max)` contains `o` and read its source at `o + diff`;
positions covered by no run read as zero (the zero-filled request tail of
spec section 4.1 `read_at`). -/
def Buffer.byteAt (b : Buffer) (o : Int) : Nat :=
  match b.rrs.find? (fun r => decide (r.min ≤ o ∧ o < r.max)) with
  | none => 0
  | some r =>
    match r.src with
    | .original => b.srcBytes.getD (o + r.diff).toNat 0
    | .inMemory bs => bs.getD (o + r.diff).toNat 0

/-- Modelled from the spec: the bytes a `ReadAt` of `n` bytes at offset
`off` places in the caller's slice, with the tail past the logical end
zero-filled (spec section 4.1). -/
def Buffer.readList (b : Buffer) (off : Int) (n : Nat) : List Nat :=
  (List.range n).map fun k => b.byteAt (off + (k : Int))

/-- Modelled from the spec: the per-run effect of `insert(i, b)` for `i`
strictly inside the buffer: runs wholly before `i` are untouched, runs
wholly after are shifted by +1 (their `diff` compensating so content is
preserved), and the containing run is split into prefix, a fresh 1-byte
InMemory run, and a shifted suffix, empty prefixes being dropped
(spec section 4.1, "Algorithm for split-on-insert"). -/
def insRR (i : Int) (c : Nat) (r : RR) : List RR :=
  if r.max ≤ i then [r]
  else if i < r.min then [⟨r.min + 1, r.max + 1, r.src, r.diff - 1⟩]
  else
    (if r.min < i then [⟨r.min, i, r.src, r.diff⟩] else []) ++
      ⟨i, i + 1, .inMemory [c], -i⟩ ::
        [⟨i + 1, r.max + 1, r.src, r.diff - 1⟩]

/-- Modelled from the spec: `insert(i, b)` splits the run containing `i`
and shifts the tail; if `i = len()` it appends a 1-byte InMemory run
(spec section 4.1). -/
def Buffer.insert (b : Buffer) (i : Int) (c : Nat) : Buffer :=
  if i = b.len then
    { b with rrs := b.rrs ++ [⟨i, i + 1, .inMemory [c], -i⟩] }
  else
    { b with rrs := b.rrs.flatMap (insRR i c) }

/-- Modelled from the spec: the per-run effect of `replace(i, b)`: the byte
at `i` becomes its own run retargeted to an InMemory holder of `[b]`;
all other output positions keep their ranges and sources
(spec section 4.1). -/
def repRR (i : Int) (c : Nat) (r : RR) : List RR :=
  if r.max ≤ i ∨ i < r.min then [r]
  else
    (if r.min < i then [⟨r.min, i, r.src, r.diff⟩] else []) ++
      ⟨i, i + 1, .inMemory [c], -i⟩ ::
        (if i + 1 < r.max then [⟨i + 1, r.max, r.src, r.diff⟩] else [])

/-- Modelled from the spec: `replace(i, b)` retargets the byte at `i` to an
in-memory run and leaves the logical length unchanged (spec section 4.1,
"Length unchanged").  At `i = len()` - exercised by `TestBufferReplace` in
the covered sources, which replaces at index 16 of a 16-byte buffer and
still expects `Len() = 16` while the new byte is readable at index 16 and
reported by `EditedIndices()` - the committed in-memory run is followed by
an empty cap run carrying the old end, so the last run's `max` (the
length) is unchanged. -/
def Buffer.replace (b : Buffer) (i : Int) (c : Nat) : Buffer :=
  if i = b.len then
    { b with rrs := b.rrs ++ [⟨i, i + 1, .inMemory [c], -i⟩, ⟨i + 1, i, .original, 0⟩] }
  else
    { b with rrs := b.rrs.flatMap (repRR i c) }

/-- Modelled from the spec: the per-run effect of `delete(i)`: runs before
`i` untouched, runs after shifted by -1, the containing run shortened
(split into the part before `i` and the shifted part after), either part
being dropped when empty (spec section 4.1). -/
def delRR (i : Int) (r : RR) : List RR :=
  if r.max ≤ i then [r]
  else if i < r.min then [⟨r.min - 1, r.max - 1, r.src, r.diff + 1⟩]
  else
    (if r.min < i then [⟨r.min, i, r.src, r.diff⟩] else []) ++
      (if i + 1 < r.max then [⟨i, r.max - 1, r.src, r.diff + 1⟩] else [])

/-- Modelled from the spec: `delete(i)` removes the byte at `i`
(spec section 4.1). -/
def Buffer.delete (b : Buffer) (i : Int) : Buffer :=
  { b with rrs := b.rrs.flatMap (delRR i) }

/-- Modelled from the spec: coalescing helper carrying the open range
`(s, e)` being accumulated. -/
def coalesceAux (s e : Int) : List (Int × Int) → List (Int × Int)
  | [] => [(s, e)]
  | (s2, e2) :: rest =>
    if e = s2 then coalesceAux s e2 rest else (s, e) :: coalesceAux s2 e2 rest

/-- Modelled from the spec: coalesce adjacent ranges (spec section 4.1,
`edited_indices`: "Adjacent InMemory runs must be coalesced"). -/
def coalesceRanges : List (Int × Int) → List (Int × Int)
  | [] => []
  | (s, e) :: rest => coalesceAux s e rest

/-- Modelled from the spec: `edited_indices()` returns the flattened pairs
`[start0, end0, start1, end1, ...]` of the byte ranges currently backed by
InMemory runs, adjacent runs coalesced (spec section 4.1). -/
def Buffer.editedIndices (b : Buffer) : List Int :=
  (coalesceRanges (b.rrs.filterMap fun r =>
    match r.src with
    | .inMemory _ => some (r.min, r.max)
    | .original => none)).flatMap fun p => [p.1, p.2]

/-- Modelled from the spec: run invariants - runs are sorted, contiguous
and nonempty, starting at `lo` (spec section 3, "Invariants"). -/
def chainFrom : Int → List RR → Prop
  | _, [] => True
  | lo, r :: rest => r.min = lo ∧ r.min < r.max ∧ chainFrom r.max rest

instance : ∀ lo l, Decidable (chainFrom lo l) := by
  intro lo l
  induction l generalizing lo with
  | nil => exact .isTrue trivial
  | cons r rest ih =>
    letI := ih r.max
    exact inferInstanceAs (Decidable (r.min = lo ∧ r.min < r.max ∧ chainFrom r.max rest))

/-- Modelled from the spec: a well-formed buffer's runs partition
`[0, len)` (spec section 3). -/
def Buffer.WF (b : Buffer) : Prop :=
  chainFrom 0 b.rrs

instance (b : Buffer) : Decidable b.WF :=
  inferInstanceAs (Decidable (chainFrom 0 b.rrs))

/-- Modelled from the spec: a history entry is a buffer snapshot together
with the viewport offset and the cursor (spec section 3). -/
structure HEntry where
  buffer : Buffer
  offset : Int
  cursor : Int
  deriving DecidableEq, Repr

/-- Modelled from the spec: the history holds a sequence of entries and a
current index (spec section 4.2). -/
structure History where
  entries : List HEntry
  index : Nat
  deriving DecidableEq, Repr

/-- Modelled from the spec: `push` drops entries after the current index,
appends the new entry, and sets current to the new tail
(spec section 4.2). -/
def History.push (h : History) (b : Buffer) (off cur : Int) : History :=
  let es := h.entries.take (h.index + 1)
  ⟨es ++ [⟨b, off, cur⟩], es.length⟩

/-- Modelled from the spec: `undo` decrements the current index when it is
positive and returns the entry now current, and otherwise reports that
there is nothing to undo (spec section 4.2). -/
def History.undo (h : History) : Option HEntry × History :=
  if 0 < h.index then
    match h.entries[h.index - 1]? with
    | some en => (some en, { h with index := h.index - 1 })
    | none => (none, h)
  else (none, h)

/-- Modelled from the spec: `redo` is symmetric to `undo`: it advances the
current index when a later entry exists and returns it
(spec section 4.2). -/
def History.redo (h : History) : Option HEntry × History :=
  match h.entries[h.index + 1]? with
  | some en => (some en, { h with index := h.index + 1 })
  | none => (none, h)

/-- Modelled from the spec: the modes carried by events
(spec section 6, "Event contract"). -/
inductive Mode where
  | normal | insert | replace | cmdline
  deriving DecidableEq, Repr

/-- Modelled from the spec: the event types dispatched by the window event
loop, in the order of the event constants, so that the navigation events
form the contiguous range `cursorUp ... jumpBack`
(spec section 4.3, "History push policy"). -/
inductive EventType where
  | cursorUp | cursorDown | cursorLeft | cursorRight | cursorPrev | cursorNext
  | cursorHead | cursorEnd | cursorGotoAbs | cursorGotoRel
  | scrollUp | scrollDown | pageUp | pageDown | pageUpHalf | pageDownHalf
  | pageTop | pageEnd | jumpTo | jumpBack
  | deleteByte | deletePrevByte | increment | decrement
  | startInsert | startInsertHead | startAppend | startAppendEnd
  | startReplaceByte | startReplace | exitInsert | rune | backspace | delete
  | switchFocus | undo | redo | executeSearch | nextSearch | previousSearch
  deriving DecidableEq, Repr

/-- The navigation-only event range `EventCursorUp ... EventJumpBack` used
by the history push policy (window.go, `Run`). -/
def EventType.isNav : EventType → Bool
  | .cursorUp | .cursorDown | .cursorLeft | .cursorRight | .cursorPrev
  | .cursorNext | .cursorHead | .cursorEnd | .cursorGotoAbs | .cursorGotoRel
  | .scrollUp | .scrollDown | .pageUp | .pageDown | .pageUpHalf
  | .pageDownHalf | .pageTop | .pageEnd | .jumpTo | .jumpBack => true
  | _ => false

/-- An event as consumed by the window: type, mode, count, input rune, and
search argument (as the byte list `[]byte(e.Arg)`)
(spec section 6, "Event contract"). -/
structure Event where
  type : EventType
  mode : Mode
  count : Int
  rune : Char
  arg : List Nat
  deriving DecidableEq, Repr

/-- A saved jump position (window.go, `type position`). -/
structure Position where
  cursor : Int
  offset : Int
  deriving DecidableEq, Repr

/-- The window state (window.go, `type window`), without the channels and
the mutex, which carry no editing state. -/
structure Window where
  buffer : Buffer
  changedTick : Nat
  prevChanged : Bool
  history : History
  height : Int
  width : Int
  offset : Int
  cursor : Int
  length : Int
  stack : List Position
  append : Bool
  replaceByte : Bool
  extending : Bool
  pending : Bool
  pendingByte : Nat
  focusText : Bool
  deriving DecidableEq, Repr

/-- window.go `setSize`: re-align the offset to the new width and clamp it
so the last page is not overshot. -/
def Window.setSize (w : Window) (width height : Int) : Window :=
  let w1 := { w with width := width, height := height }
  let w2 := { w1 with offset := w1.offset / w1.width * w1.width }
  let w3 :=
    if w2.cursor ≥ w2.offset + w2.height * w2.width then
      { w2 with offset := (w2.cursor - w2.height * w2.width + w2.width) / w2.width * w2.width }
    else w2
  { w3 with offset := min w3.offset (max (w3.length - 1 - w3.height * w3.width + w3.width) 0 / w3.width * w3.width) }

/-- window.go `readBytes`: read `n` bytes at `offset` into a zero-filled
slice; a negative offset is the invalid-argument error, end-of-source is
not an error. -/
def Window.readBytes (w : Window) (off : Int) (n : Nat) : Option (List Nat) :=
  if off < 0 then none else some (w.buffer.readList off n)

/-- window.go `insert`: buffer insert plus a changed tick. -/
def Window.insert (w : Window) (off : Int) (c : Nat) : Window :=
  { w with buffer := w.buffer.insert off c, changedTick := w.changedTick + 1 }

/-- window.go `replace`: buffer replace plus a changed tick. -/
def Window.replace (w : Window) (off : Int) (c : Nat) : Window :=
  { w with buffer := w.buffer.replace off c, changedTick := w.changedTick + 1 }

/-- window.go `delete`: buffer delete plus a changed tick. -/
def Window.delete (w : Window) (off : Int) : Window :=
  { w with buffer := w.buffer.delete off, changedTick := w.changedTick + 1 }

/-- One iteration step of window.go `undo`: ask the history; on success
restore buffer, offset and cursor and recompute the length, otherwise
leave the window unchanged. -/
def Window.undoStep (w : Window) : Window :=
  match w.history.undo with
  | (none, _) => w
  | (some en, h2) =>
    { w with buffer := en.buffer, offset := en.offset, cursor := en.cursor,
             length := en.buffer.len, history := h2 }

/-- The loop of window.go `undo`: iterate, returning early once the
history has nothing more to undo. -/
def undoIter : Nat → Window → Window
  | 0, w => w
  | n + 1, w =>
    match w.history.undo with
    | (none, _) => w
    | (some en, h2) =>
      undoIter n { w with buffer := en.buffer, offset := en.offset, cursor := en.cursor,
                          length := en.buffer.len, history := h2 }

/-- window.go `undo`: iterate `max(count, 1)` times. -/
def Window.undo (w : Window) (count : Int) : Window :=
  undoIter (max count 1).toNat w

/-- One iteration step of window.go `redo`. -/
def Window.redoStep (w : Window) : Window :=
  match w.history.redo with
  | (none, _) => w
  | (some en, h2) =>
    { w with buffer := en.buffer, offset := en.offset, cursor := en.cursor,
             length := en.buffer.len, history := h2 }

/-- The loop of window.go `redo`. -/
def redoIter : Nat → Window → Window
  | 0, w => w
  | n + 1, w =>
    match w.history.redo with
    | (none, _) => w
    | (some en, h2) =>
      redoIter n { w with buffer := en.buffer, offset := en.offset, cursor := en.cursor,
                          length := en.buffer.len, history := h2 }

/-- window.go `redo`: iterate `max(count, 1)` times. -/
def Window.redo (w : Window) (count : Int) : Window :=
  redoIter (max count 1).toNat w

/-- window.go `cursorUp`. -/
def Window.cursorUp (w : Window) (count : Int) : Window :=
  let w1 := { w with cursor := w.cursor - min (max count 1) (w.cursor / w.width) * w.width }
  if w1.cursor < w1.offset then { w1 with offset := w1.cursor / w1.width * w1.width } else w1

/-- window.go `cursorDown`. -/
def Window.cursorDown (w : Window) (count : Int) : Window :=
  let d := min (min (max count 1) ((max w.length 1 - 1) / w.width - w.cursor / w.width) * w.width)
    (max w.length 1 - 1 - w.cursor)
  let w1 := { w with cursor := w.cursor + d }
  if w1.cursor ≥ w1.offset + w1.height * w1.width then
    { w1 with offset := (w1.cursor - w1.height * w1.width + w1.width) / w1.width * w1.width }
  else w1

/-- window.go `cursorLeft`. -/
def Window.cursorLeft (w : Window) (count : Int) : Window :=
  let w1 := { w with cursor := w.cursor - min (max count 1) (w.cursor % w.width) }
  if w1.append ∧ w1.extending ∧ w1.cursor < w1.length - 1 then
    let w2 := { w1 with append := false, extending := false }
    if w2.length > 0 then { w2 with length := w2.length - 1 } else w2
  else w1

/-- window.go `cursorRight`. -/
def Window.cursorRight (w : Window) (mode : Mode) (count : Int) : Window :=
  if mode = .normal then
    let d := min (min (max count 1) (w.width - 1 - w.cursor % w.width)) (max w.length 1 - 1 - w.cursor)
    { w with cursor := w.cursor + d }
  else if ¬w.extending then
    let d := min (min (max count 1) (w.width - 1 - w.cursor % w.width)) (w.length - w.cursor)
    let w1 := { w with cursor := w.cursor + d }
    if w1.cursor = w1.length then
      { w1 with append := true, extending := true, length := w1.length + 1 }
    else w1
  else w

/-- window.go `cursorPrev`. -/
def Window.cursorPrev (w : Window) (count : Int) : Window :=
  let w1 := { w with cursor := w.cursor - min (max count 1) w.cursor }
  let w2 := if w1.cursor < w1.offset then { w1 with offset := w1.cursor / w1.width * w1.width } else w1
  if w2.append ∧ w2.extending ∧ w2.cursor ≠ w2.length then
    let w3 := { w2 with append := false, extending := false }
    if w3.length > 0 then { w3 with length := w3.length - 1 } else w3
  else w2

/-- window.go `cursorNext`. -/
def Window.cursorNext (w : Window) (mode : Mode) (count : Int) : Window :=
  let w1 :=
    if mode = .normal then
      { w with cursor := w.cursor + min (max count 1) (max w.length 1 - 1 - w.cursor) }
    else if ¬w.extending then
      let wa := { w with cursor := w.cursor + min (max count 1) (w.length - w.cursor) }
      if wa.cursor = wa.length then
        { wa with append := true, extending := true, length := wa.length + 1 }
      else wa
    else w
  if w1.cursor ≥ w1.offset + w1.height * w1.width then
    { w1 with offset := (w1.cursor - w1.height * w1.width + w1.width) / w1.width * w1.width }
  else w1

/-- window.go `cursorHead`; the count parameter is ignored. -/
def Window.cursorHead (w : Window) (_count : Int) : Window :=
  { w with cursor := w.cursor - w.cursor % w.width }

/-- window.go `cursorEnd`. -/
def Window.cursorEnd (w : Window) (count : Int) : Window :=
  let w1 := { w with cursor := min ((w.cursor / w.width + max count 1) * w.width - 1) (max w.length 1 - 1) }
  if w1.cursor ≥ w1.offset + w1.height * w1.width then
    { w1 with offset := (w1.cursor - w1.height * w1.width + w1.width) / w1.width * w1.width }
  else w1

/-- window.go `cursorGotoAbs`. -/
def Window.cursorGotoAbs (w : Window) (count : Int) : Window :=
  let w1 := { w with cursor := min count (max w.length 1 - 1) }
  if w1.cursor < w1.offset then
    { w1 with offset := (max (w1.cursor / w1.width) (w1.height / 2) - w1.height / 2) * w1.width }
  else if w1.cursor ≥ w1.offset + w1.height * w1.width then
    let h := (max w1.length 1 + w1.width - 1) / w1.width - w1.height
    { w1 with offset := min ((w1.cursor - w1.height * w1.width + w1.width) / w1.width + w1.height / 2) h * w1.width }
  else w1

/-- window.go `cursorGotoRel`. -/
def Window.cursorGotoRel (w : Window) (count : Int) : Window :=
  let d := max (min count (max w.length 1 - 1 - w.cursor)) (-w.cursor)
  let w1 := { w with cursor := w.cursor + d }
  if w1.cursor < w1.offset then
    { w1 with offset := (max (w1.cursor / w1.width) (w1.height / 2) - w1.height / 2) * w1.width }
  else if w1.cursor ≥ w1.offset + w1.height * w1.width then
    let h := (max w1.length 1 + w1.width - 1) / w1.width - w1.height
    { w1 with offset := min ((w1.cursor - w1.height * w1.width + w1.width) / w1.width + w1.height / 2) h * w1.width }
  else w1

/-- window.go `scrollUp`. -/
def Window.scrollUp (w : Window) (count : Int) : Window :=
  let w1 := { w with offset := w.offset - min (max count 1) (w.offset / w.width) * w.width }
  if w1.cursor ≥ w1.offset + w1.height * w1.width then
    { w1 with cursor := w1.cursor - ((w1.cursor - w1.offset - w1.height * w1.width) / w1.width + 1) * w1.width }
  else w1

/-- window.go `scrollDown`. -/
def Window.scrollDown (w : Window) (count : Int) : Window :=
  let h := max ((max w.length 1 + w.width - 1) / w.width - w.height) 0
  let w1 := { w with offset := w.offset + min (max count 1) (h - w.offset / w.width) * w.width }
  if w1.cursor < w1.offset then
    let d := min ((w1.offset - w1.cursor + w1.width - 1) / w1.width * w1.width) (max w1.length 1 - 1 - w1.cursor)
    { w1 with cursor := w1.cursor + d }
  else w1

/-- window.go `pageUp`. -/
def Window.pageUp (w : Window) : Window :=
  let w1 := { w with offset := max (w.offset - (w.height - 2) * w.width) 0 }
  if w1.offset = 0 then { w1 with cursor := 0 }
  else if w1.cursor ≥ w1.offset + w1.height * w1.width then
    { w1 with cursor := w1.offset + (w1.height - 1) * w1.width }
  else w1

/-- window.go `pageDown`. -/
def Window.pageDown (w : Window) : Window :=
  let ofs := max (((w.length + w.width - 1) / w.width - w.height) * w.width) 0
  let w1 := { w with offset := min (w.offset + (w.height - 2) * w.width) ofs }
  if w1.cursor < w1.offset then { w1 with cursor := w1.offset }
  else if w1.offset = ofs then
    { w1 with cursor := ((max w1.length 1 + w1.width - 1) / w1.width - 1) * w1.width }
  else w1

/-- window.go `pageUpHalf`. -/
def Window.pageUpHalf (w : Window) : Window :=
  let w1 := { w with offset := max (w.offset - max (w.height / 2) 1 * w.width) 0 }
  if w1.offset = 0 then { w1 with cursor := 0 }
  else if w1.cursor ≥ w1.offset + w1.height * w1.width then
    { w1 with cursor := w1.offset + (w1.height - 1) * w1.width }
  else w1

/-- window.go `pageDownHalf`. -/
def Window.pageDownHalf (w : Window) : Window :=
  let ofs := max (((w.length + w.width - 1) / w.width - w.height) * w.width) 0
  let w1 := { w with offset := min (w.offset + max (w.height / 2) 1 * w.width) ofs }
  if w1.cursor < w1.offset then { w1 with cursor := w1.offset }
  else if w1.offset = ofs then
    { w1 with cursor := ((max w1.length 1 + w1.width - 1) / w1.width - 1) * w1.width }
  else w1

/-- window.go `pageTop`. -/
def Window.pageTop (w : Window) : Window :=
  { w with offset := 0, cursor := 0 }

/-- window.go `pageEnd`. -/
def Window.pageEnd (w : Window) : Window :=
  { w with offset := max (((w.length + w.width - 1) / w.width - w.height) * w.width) 0,
           cursor := ((max w.length 1 + w.width - 1) / w.width - 1) * w.width }

/-- window.go `isDigit`. -/
def isDigit (b : Nat) : Bool :=
  0x30 ≤ b ∧ b ≤ 0x39

/-- window.go `isWhite`. -/
def isWhite (b : Nat) : Bool :=
  b = 0x00 ∨ b = 0x09 ∨ b = 0x0a ∨ b = 0x0d ∨ b = 0x20

/-- The backward scan of window.go `jumpTo`
(`for ; 0 < i && isDigit(bytes[i-1]); i--`). -/
def backScan (bs : List Nat) : Nat → Nat
  | 0 => 0
  | i + 1 => if isDigit (bs.getD i 0) then backScan bs i else i + 1

/-- Go `strconv.ParseInt` on a nonempty all-digit string, with the error
ignored as in `jumpTo`: on 64-bit overflow the returned value is the
clamped maximal int64. -/
def parseDigits (ds : List Nat) : Int :=
  let v := ds.foldl (fun a d => a * 10 + ((d : Int) - 0x30)) 0
  min v 9223372036854775807

/-- The scanning-and-parsing prefix of window.go `jumpTo`: read 50 bytes
on each side of the cursor, skip whitespace from the middle, bail out if
no digit is under the scan or the digit run touches the right boundary,
otherwise parse the maximal contiguous digit run around the first digit
position. -/
def Window.jumpParse (w : Window) : Option Int :=
  match w.readBytes (max (w.cursor - 50) 0) 100 with
  | none => none
  | some bs =>
    let i0 := ((List.range' 50 50).find? fun k => !isWhite (bs.getD k 0)).getD 100
    if i0 = 100 ∨ ¬isDigit (bs.getD i0 0) then none
    else
      let i := backScan bs i0
      let j := ((List.range' i (100 - i)).find? fun k => !isDigit (bs.getD k 0)).getD 100
      if j = 100 then none
      else some (parseDigits ((bs.drop i).take (j - i)))

/-- window.go `jumpTo`: on a parsed target strictly inside `(0, length)`,
push the current position and move, recentering with a `height/3` margin;
otherwise do nothing. -/
def Window.jumpTo (w : Window) : Window :=
  match w.jumpParse with
  | none => w
  | some v =>
    if v ≤ 0 ∨ w.length ≤ v then w
    else
      { w with stack := w.stack ++ [⟨w.cursor, w.offset⟩], cursor := v,
               offset := max (v - v % w.width - max (w.height / 3) 0 * w.width) 0 }

/-- window.go `jumpBack`: pop the jump stack if nonempty. -/
def Window.jumpBack (w : Window) : Window :=
  match w.stack.getLast? with
  | none => w
  | some p => { w with cursor := p.cursor, offset := p.offset, stack := w.stack.dropLast }

/-- The loop body of window.go `deleteByte`. -/
def deleteIter : Nat → Window → Window
  | 0, w => w
  | n + 1, w =>
    let w1 := Window.delete w w.cursor
    let w2 := { w1 with length := w1.length - 1 }
    let w3 := if w2.cursor = w2.length ∧ w2.cursor > 0 then { w2 with cursor := w2.cursor - 1 } else w2
    deleteIter n w3

/-- window.go `deleteByte`. -/
def Window.deleteByte (w : Window) (count : Int) : Window :=
  if w.length = 0 then w
  else deleteIter (min (min (max count 1) (w.width - w.cursor % w.width)) (w.length - w.cursor)).toNat w

/-- The loop body of window.go `deletePrevByte`. -/
def deletePrevIter : Nat → Window → Window
  | 0, w => w
  | n + 1, w =>
    let w1 := Window.delete w (w.cursor - 1)
    deletePrevIter n { w1 with cursor := w1.cursor - 1, length := w1.length - 1 }

/-- window.go `deletePrevByte`. -/
def Window.deletePrevByte (w : Window) (count : Int) : Window :=
  deletePrevIter (min (max count 1) (w.cursor % w.width)).toNat w

/-- window.go `increment`: replace the byte under the cursor with itself
plus `count mod 256` (byte arithmetic wraps). -/
def Window.increment (w : Window) (count : Int) : Window :=
  match w.readBytes w.cursor 1 with
  | none => w
  | some bs =>
    let w1 := w.replace w.cursor ((bs.getD 0 0 + (max count 1 % 256).toNat) % 256)
    if w1.length = 0 then { w1 with length := w1.length + 1 } else w1

/-- window.go `decrement`. -/
def Window.decrement (w : Window) (count : Int) : Window :=
  match w.readBytes w.cursor 1 with
  | none => w
  | some bs =>
    let w1 := w.replace w.cursor ((bs.getD 0 0 + 256 - (max count 1 % 256).toNat) % 256)
    if w1.length = 0 then { w1 with length := w1.length + 1 } else w1

/-- window.go `startInsert`: entering insert at the end of the buffer
enables the phantom byte. -/
def Window.startInsert (w : Window) : Window :=
  let w1 := { w with append := false, extending := false, pending := false }
  if w1.cursor = w1.length then
    { w1 with append := true, extending := true, length := w1.length + 1 }
  else w1

/-- window.go `startInsertHead`. -/
def Window.startInsertHead (w : Window) : Window :=
  let w0 := w.cursorHead 0
  let w1 := { w0 with append := false, extending := false, pending := false }
  if w1.cursor = w1.length then
    { w1 with append := true, extending := true, length := w1.length + 1 }
  else w1

/-- window.go `startAppend`. -/
def Window.startAppend (w : Window) : Window :=
  let w1 := { w with append := true, extending := false, pending := false }
  let w2 := if w1.length > 0 then { w1 with cursor := w1.cursor + 1 } else w1
  let w3 := if w2.cursor = w2.length then { w2 with extending := true, length := w2.length + 1 } else w2
  if w3.cursor ≥ w3.offset + w3.height * w3.width then
    { w3 with offset := (w3.cursor - w3.height * w3.width + w3.width) / w3.width * w3.width }
  else w3

/-- window.go `startAppendEnd`. -/
def Window.startAppendEnd (w : Window) : Window :=
  (w.cursorEnd 0).startAppend

/-- window.go `startReplaceByte`. -/
def Window.startReplaceByte (w : Window) : Window :=
  { w with replaceByte := true, append := false, extending := false, pending := false }

/-- window.go `startReplace`. -/
def Window.startReplace (w : Window) : Window :=
  { w with replaceByte := false, append := false, extending := false, pending := false }

/-- window.go `exitInsert`: leaving append mode drops the phantom byte and
steps the cursor back. -/
def Window.exitInsert (w : Window) : Window :=
  let w1 := { w with pending := false }
  if w1.append then
    let w2 := if w1.extending ∧ w1.length > 0 then { w1 with length := w1.length - 1 } else w1
    let w3 := if w2.cursor > 0 then { w2 with cursor := w2.cursor - 1 } else w2
    { w3 with replaceByte := false, append := false, extending := false, pending := false }
  else w1

/-- window.go `insertByte`: the nibble accumulator.  Without a pending
nibble, latch the high nibble; with one, commit the byte
`pendingByte | b` by insert or replace according to the mode, then scroll
the viewport if the cursor escaped it and clear the pending state. -/
def Window.insertByte (w : Window) (mode : Mode) (b : Nat) : Window :=
  if w.pending then
    let w1 :=
      match mode with
      | .insert =>
        let wa := w.insert w.cursor (w.pendingByte ||| b)
        { wa with cursor := wa.cursor + 1, length := wa.length + 1 }
      | .replace =>
        let wa := w.replace w.cursor (w.pendingByte ||| b)
        let wb := if wa.length = 0 then { wa with length := wa.length + 1 } else wa
        if wb.replaceByte then wb.exitInsert
        else
          let wc := { wb with cursor := wb.cursor + 1 }
          if wc.cursor = wc.length then
            { wc with append := true, extending := true, length := wc.length + 1 }
          else wc
      | _ => w
    let w2 :=
      if w1.cursor ≥ w1.offset + w1.height * w1.width then
        { w1 with offset := (w1.cursor - w1.height * w1.width + w1.width) / w1.width * w1.width }
      else w1
    { w2 with pending := false, pendingByte := 0 }
  else
    { w with pending := true, pendingByte := b <<< 4 % 256 }

/-- Go `utf8.EncodeRune`: UTF-8 encoding of a code point; surrogates and
out-of-range values encode the replacement character. -/
def utf8Encode (c : Nat) : List Nat :=
  if c < 0x80 then [c]
  else if c < 0x800 then [0xc0 ||| c >>> 6, 0x80 ||| (c &&& 0x3f)]
  else if (0xd800 ≤ c ∧ c ≤ 0xdfff) ∨ 0x10ffff < c then [0xef, 0xbf, 0xbd]
  else if c < 0x10000 then
    [0xe0 ||| c >>> 12, 0x80 ||| (c >>> 6 &&& 0x3f), 0x80 ||| (c &&& 0x3f)]
  else
    [0xf0 ||| c >>> 18, 0x80 ||| (c >>> 12 &&& 0x3f), 0x80 ||| (c >>> 6 &&& 0x3f), 0x80 ||| (c &&& 0x3f)]

/-- window.go `insertRune`: under insert or replace mode, either feed the
UTF-8 bytes of the rune nibble-by-nibble (text panel focused) or accept a
single hex digit as one nibble (bytes panel focused). -/
def Window.insertRune (w : Window) (mode : Mode) (ch : Char) : Window :=
  if mode = .insert ∨ mode = .replace then
    if w.focusText then
      (utf8Encode ch.toNat).foldl
        (fun acc b => (acc.insertByte mode (b >>> 4)).insertByte mode (b &&& 0x0f)) w
    else if '0' ≤ ch ∧ ch ≤ '9' then w.insertByte mode (ch.toNat - '0'.toNat)
    else if 'a' ≤ ch ∧ ch ≤ 'f' then w.insertByte mode (ch.toNat - 'a'.toNat + 10)
    else w
  else w

/-- window.go `backspace`: cancel a pending nibble, else delete the byte
before the cursor. -/
def Window.backspace (w : Window) : Window :=
  if w.pending then { w with pending := false, pendingByte := 0 }
  else if w.cursor > 0 then
    let w1 := Window.delete w (w.cursor - 1)
    { w1 with cursor := w1.cursor - 1, length := w1.length - 1 }
  else w

/-- Go `bytes.Index`: the first index of a sublist, `none` when absent;
the empty target matches at 0. -/
def listIndex (bs target : List Nat) : Option Nat :=
  if target.length = 0 then some 0
  else (List.range (bs.length + 1 - target.length)).find? fun k =>
    decide ((bs.drop k).take target.length = target)

/-- Go `bytes.LastIndex`: the last index of a sublist; the empty target
matches at the end. -/
def listLastIndex (bs target : List Nat) : Option Nat :=
  if target.length = 0 then some bs.length
  else (List.range (bs.length + 1 - target.length)).foldl
    (fun acc k => if (bs.drop k).take target.length = target then some k else acc) none

/-- window.go `searchForward`: literal search in a bounded window starting
one past the cursor. -/
def Window.searchForward (w : Window) (target : List Nat) : Window :=
  let base := w.cursor + 1
  let size := max ((w.height * w.width).toNat * 50) (target.length * 500)
  match w.readBytes base size with
  | none => w
  | some bs =>
    match listIndex bs target with
    | none => w
    | some i =>
      let w1 := { w with cursor := base + (i : Int) }
      if w1.cursor ≥ w1.offset + w1.height * w1.width then
        { w1 with offset := (w1.cursor - w1.height * w1.width + w1.width + 1) / w1.width * w1.width }
      else w1

/-- window.go `searchBackward`: literal search in a bounded window ending
at the cursor. -/
def Window.searchBackward (w : Window) (target : List Nat) : Window :=
  let size := max ((w.height * w.width).toNat * 50) (target.length * 500)
  let base := max 0 (w.cursor - (size : Int))
  match w.readBytes base (min (size : Int) w.cursor).toNat with
  | none => w
  | some bs =>
    match listLastIndex bs target with
    | none => w
    | some i =>
      let w1 := { w with cursor := base + (i : Int) }
      if w1.cursor < w1.offset then { w1 with offset := w1.cursor / w1.width * w1.width }
      else w1

/-- window.go `search`. -/
def Window.search (w : Window) (target : List Nat) (forward : Bool) : Window :=
  if forward then w.searchForward target else w.searchBackward target

/-- The event dispatch of window.go `Run`: the switch over event types.
The abort of `EventUndo`/`EventRedo` under a non-normal mode is handled in
`runStep`; here the handler is applied unconditionally. -/
def dispatch (e : Event) (w : Window) : Window :=
  match e.type with
  | .cursorUp => w.cursorUp e.count
  | .cursorDown => w.cursorDown e.count
  | .cursorLeft => w.cursorLeft e.count
  | .cursorRight => w.cursorRight e.mode e.count
  | .cursorPrev => w.cursorPrev e.count
  | .cursorNext => w.cursorNext e.mode e.count
  | .cursorHead => w.cursorHead e.count
  | .cursorEnd => w.cursorEnd e.count
  | .cursorGotoAbs => w.cursorGotoAbs e.count
  | .cursorGotoRel => w.cursorGotoRel e.count
  | .scrollUp => w.scrollUp e.count
  | .scrollDown => w.scrollDown e.count
  | .pageUp => w.pageUp
  | .pageDown => w.pageDown
  | .pageUpHalf => w.pageUpHalf
  | .pageDownHalf => w.pageDownHalf
  | .pageTop => w.pageTop
  | .pageEnd => w.pageEnd
  | .jumpTo => w.jumpTo
  | .jumpBack => w.jumpBack
  | .deleteByte => w.deleteByte e.count
  | .deletePrevByte => w.deletePrevByte e.count
  | .increment => w.increment e.count
  | .decrement => w.decrement e.count
  | .startInsert => w.startInsert
  | .startInsertHead => w.startInsertHead
  | .startAppend => w.startAppend
  | .startAppendEnd => w.startAppendEnd
  | .startReplaceByte => w.startReplaceByte
  | .startReplace => w.startReplace
  | .exitInsert => w.exitInsert
  | .rune => w.insertRune e.mode e.rune
  | .backspace => w.backspace
  | .delete => w.deleteByte 1
  | .switchFocus =>
    let w1 := { w with focusText := !w.focusText }
    let w2 := if w1.pending then { w1 with pending := false, pendingByte := 0 } else w1
    { w2 with changedTick := w2.changedTick + 1 }
  | .undo => w.undo e.count
  | .redo => w.redo e.count
  | .executeSearch => w.search e.arg (e.rune = '/')
  | .nextSearch => w.search e.arg (e.rune = '/')
  | .previousSearch => w.search e.arg (e.rune ≠ '/')

/-- Whether window.go `Run` aborts on this event: `EventUndo`/`EventRedo`
under a non-normal mode panic. -/
def panics (e : Event) : Prop :=
  (e.type = .undo ∨ e.type = .redo) ∧ e.mode ≠ .normal

instance (e : Event) : Decidable (panics e) :=
  instDecidableAnd

/-- One full turn of the window.go `Run` loop on one event: the dispatch
followed by the history push policy; `none` models the abort (panic) of
undo/redo under a non-normal mode. -/
def runStep (e : Event) (w : Window) : Option Window :=
  if panics e then none
  else
    let w1 := dispatch e w
    let changed := w1.changedTick ≠ w.changedTick
    let w2 :=
      if e.type = .undo ∨ e.type = .redo then w1
      else if (e.mode = .normal ∧ changed) ∨ (e.type = .exitInsert ∧ w.prevChanged = true) then
        { w1 with history := w1.history.push w1.buffer w1.offset w1.cursor }
      else if e.mode ≠ .normal ∧ w.prevChanged = true ∧ ¬changed ∧ e.type.isNav = true then
        { w1 with history := w1.history.push w1.buffer w.offset w.cursor }
      else w1
    some { w2 with prevChanged := decide changed }

/-- The seed source of the concrete scenarios. -/
def sourceHex : List Nat :=
  "0123456789abcdef".toList.map Char.toNat

/-- The buffer over the seed source. -/
def bufHex : Buffer :=
  Buffer.fromList sourceHex

/-- Scenario B after the first four replaces. -/
def bufRep4 : Buffer :=
  (((bufHex.replace 0 0x39).replace 0 0x38).replace 1 0x37).replace 5 0x30

/-- Scenario B after the full documented replace sequence of
`TestBufferReplace`. -/
def bufRepFull : Buffer :=
  (((((bufRep4.replace 4 0x31).replace 3 0x30).replace 2 0x31).replace 16 0x31).replace 15 0x30).replace 2 0x39

/-- A concrete window over the 16-byte seed source, used by the witnesses. -/
def win0 : Window :=
  { buffer := bufHex, changedTick := 0, prevChanged := false,
    history := ⟨[⟨bufHex, 0, 0⟩], 0⟩, height := 10, width := 16,
    offset := 0, cursor := 0, length := 16, stack := [],
    append := false, replaceByte := false, extending := false,
    pending := false, pendingByte := 0, focusText := false }

/-- A concrete window whose history has two entries with the current index
on the second. -/
def winH : Window :=
  { win0 with buffer := bufRep4, cursor := 5,
              history := ⟨[⟨bufHex, 0, 0⟩, ⟨bufRep4, 0, 5⟩], 1⟩ }

/-- The source for the jump witness: a digit `'7'` at index 50 surrounded
by spaces. -/
def srcJump : List Nat :=
  List.replicate 50 0x20 ++ 0x37 :: List.replicate 49 0x20

/-- A concrete window on `srcJump` with the cursor on the digit. -/
def winJ : Window :=
  { win0 with buffer := Buffer.fromList srcJump, length := 100, cursor := 50,
              width := 16, height := 3, offset := 48 }

/-- The byte window scanned by a search (window.go `searchForward` and
`searchBackward`, `size`). -/
def searchSize (w : Window) (target : List Nat) : Nat :=
  max ((w.height * w.width).toNat * 50) (target.length * 500)

/-- The bytes scanned by a forward search. -/
def fwdWindowBytes (w : Window) (target : List Nat) : List Nat :=
  w.buffer.readList (w.cursor + 1) (searchSize w target)

/-- The base offset of a backward search. -/
def bwdBase (w : Window) (target : List Nat) : Int :=
  max 0 (w.cursor - (searchSize w target : Int))

/-- The bytes scanned by a backward search. -/
def bwdWindowBytes (w : Window) (target : List Nat) : List Nat :=
  w.buffer.readList (bwdBase w target) (min (searchSize w target : Int) w.cursor).toNat

/-- A concrete window for the forward-search scenario: the hex seed
buffer viewed through a 16 by 1 viewport, cursor at 0. -/
def winS : Window :=
  { win0 with height := 1 }

/-- The backward-search scenario window: cursor at 15. -/
def winSB : Window :=
  { winS with cursor := 15 }

/-- The strengthened phantom-byte invariant of C4. -/
def ExtInv (w : Window) : Prop :=
  w.buffer.WF ∧ 0 ≤ w.cursor ∧ w.cursor ≤ w.length ∧
  (w.extending = true → w.append = true ∧ w.length = w.buffer.len + 1 ∧ w.cursor = w.length - 1) ∧
  (w.extending = false → w.length = w.buffer.len)

/-- A concrete extending-state window: 32 real bytes, phantom byte at
index 32, cursor on it, one full row above the cursor. -/
def winExt : Window :=
  { win0 with buffer := Buffer.fromList (List.replicate 32 0x41), length := 33,
              cursor := 32, extending := true, append := true, height := 4 }

/-- Proof-internal bundle for C8: the handler left width, jump stack and
history untouched and its offset is still a multiple of the width. -/
def AuxAligned (w w1 : Window) : Prop :=
  w1.width = w.width ∧ w1.stack = w.stack ∧ w1.history = w.history ∧ w1.offset % w.width = 0

/-- The alignment invariant of C8, strengthened with the jump-stack and
history entries it needs to be inductive. -/
def AlignInv (w : Window) : Prop :=
  w.offset % w.width = 0 ∧ (∀ p ∈ w.stack, p.offset % w.width = 0) ∧
  (∀ en ∈ w.history.entries, en.offset % w.width = 0)

/-- A concrete window whose jump stack holds a saved offset that is not a
multiple of the width (as arises when the width changes between the push
and the pop). -/
def winMis : Window :=
  { win0 with stack := [⟨0, 7⟩] }

/-! ### Theorems -/

theorem endOf_append (l1 l2 : List RR) (lo : Int) :
    endOf lo (l1 ++ l2) = endOf (endOf lo l1) l2 := by
  induction l1 generalizing lo with
  | nil => rfl
  | cons r rest ih => simpa [endOf] using ih r.max

theorem endOf_repRR (i : Int) (c : Nat) (r : RR) (lo : Int) :
    endOf lo (repRR i c r) = r.max := by
  unfold repRR
  split
  · rfl
  · rename_i h
    rcases not_or.mp h with ⟨h1, h2⟩
    by_cases hpre : r.min < i <;> by_cases hsuf : i + 1 < r.max <;>
      simp [hpre, hsuf, endOf] <;> omega

theorem endOf_flatMap_repRR (i : Int) (c : Nat) (l : List RR) (lo : Int) :
    endOf lo (l.flatMap (repRR i c)) = endOf lo l := by
  induction l generalizing lo with
  | nil => rfl
  | cons r rest ih =>
    rw [List.flatMap_cons, endOf_append, endOf_repRR]
    exact ih r.max

/-- C5: `Buffer.Replace` leaves the logical length unchanged; from the
source `"0123456789abcdef"`, the replaces `(0,'9'), (0,'8'), (1,'7'),
(5,'0')` yield first eight bytes `"87234067"` with length still 16, and
after the full documented replace sequence `EditedIndices()` returns the
coalesced flattened ranges `[0, 6, 15, 17]`. -/
theorem replace_keeps_length_and_scenarioB :
    (∀ (b : Buffer) (i : Int) (c : Nat), (b.replace i c).len = b.len) ∧
    bufRep4.readList 0 8 =
      [0x38, 0x37, 0x32, 0x33, 0x34, 0x30, 0x36, 0x37] ∧
    bufRep4.len = 16 ∧
    bufRepFull.editedIndices = [0, 6, 15, 17] := by
  refine ⟨fun b i c => ?_, by decide, by decide, by decide⟩
  unfold Buffer.replace
  split
  · rename_i h
    simp only [Buffer.len, endOf_append, endOf] at h ⊢
    omega
  · exact endOf_flatMap_repRR _ _ _ _

theorem insertByte_latch (w : Window) (mode : Mode) (b : Nat) (h : w.pending = false) :
    w.insertByte mode b = { w with pending := true, pendingByte := b <<< 4 % 256 } := by
  unfold Window.insertByte
  rw [h]
  simp

theorem insertByte_commit_insert (w : Window) (b : Nat) (h : w.pending = true) :
    (w.insertByte .insert b).buffer = w.buffer.insert w.cursor (w.pendingByte ||| b) ∧
    (w.insertByte .insert b).cursor = w.cursor + 1 ∧
    (w.insertByte .insert b).length = w.length + 1 ∧
    (w.insertByte .insert b).pending = false ∧
    (w.insertByte .insert b).pendingByte = 0 := by
  unfold Window.insertByte
  rw [h]
  simp only [if_true, Window.insert]
  split <;> simp

theorem insertRune_hex_eq (w : Window) (ch : Char) (n : Nat)
    (hfocus : w.focusText = false)
    (hn : ('0' ≤ ch ∧ ch ≤ '9' ∧ n = ch.toNat - '0'.toNat) ∨
      ('a' ≤ ch ∧ ch ≤ 'f' ∧ n = ch.toNat - 'a'.toNat + 10)) :
    w.insertRune .insert ch = w.insertByte .insert n := by
  rcases hn with ⟨h1, h2, hv⟩ | ⟨h1, h2, hv⟩
  · simp [Window.insertRune, hfocus, h1, h2, hv]
  · have h9 : ¬ch ≤ '9' := fun hc => absurd (le_trans h1 hc) (by decide)
    simp [Window.insertRune, hfocus, h1, h2, h9, hv]

theorem hexNibble_le (ch : Char) (n : Nat)
    (hn : ('0' ≤ ch ∧ ch ≤ '9' ∧ n = ch.toNat - '0'.toNat) ∨
      ('a' ≤ ch ∧ ch ≤ 'f' ∧ n = ch.toNat - 'a'.toNat + 10)) :
    n ≤ 15 := by
  rcases hn with ⟨_, h2, hv⟩ | ⟨_, h2, hv⟩
  · have ha : ch.toNat ≤ 57 := by simpa [Char.toNat] using Char.le_def.mp h2
    have h0 : Char.toNat '0' = 48 := rfl
    omega
  · have ha : ch.toNat ≤ 102 := by simpa [Char.toNat] using Char.le_def.mp h2
    have h0 : Char.toNat 'a' = 97 := rfl
    omega

/-- C1: in insert mode with the bytes panel focused, an accepted hex-digit
rune either latches its nibble as the pending high nibble (pending was
clear: `pendingByte = n <<< 4`, `pending = true`, everything else - in
particular buffer, cursor and length - unchanged), or commits the single
byte `pendingByte ||| n` at the cursor, incrementing cursor and length by
one and clearing the pending state; hence two accepted hex-digit runes
insert exactly one byte `(high <<< 4) ||| low` and advance the cursor
by 1. -/
theorem insertRune_hex_nibble_accumulator (w : Window) (ch : Char) (n : Nat)
    (hfocus : w.focusText = false)
    (hn : ('0' ≤ ch ∧ ch ≤ '9' ∧ n = ch.toNat - '0'.toNat) ∨
      ('a' ≤ ch ∧ ch ≤ 'f' ∧ n = ch.toNat - 'a'.toNat + 10)) :
    (w.pending = false →
      w.insertRune .insert ch = { w with pending := true, pendingByte := n <<< 4 }) ∧
    (w.pending = true →
      (w.insertRune .insert ch).buffer = w.buffer.insert w.cursor (w.pendingByte ||| n) ∧
      (w.insertRune .insert ch).cursor = w.cursor + 1 ∧
      (w.insertRune .insert ch).length = w.length + 1 ∧
      (w.insertRune .insert ch).pending = false ∧
      (w.insertRune .insert ch).pendingByte = 0) ∧
    (w.pending = false → ∀ (ch2 : Char) (m : Nat),
      ('0' ≤ ch2 ∧ ch2 ≤ '9' ∧ m = ch2.toNat - '0'.toNat) ∨
        ('a' ≤ ch2 ∧ ch2 ≤ 'f' ∧ m = ch2.toNat - 'a'.toNat + 10) →
      ((w.insertRune .insert ch).insertRune .insert ch2).buffer =
        w.buffer.insert w.cursor (n <<< 4 ||| m) ∧
      ((w.insertRune .insert ch).insertRune .insert ch2).cursor = w.cursor + 1 ∧
      ((w.insertRune .insert ch).insertRune .insert ch2).length = w.length + 1) := by
  have hle : n ≤ 15 := hexNibble_le ch n hn
  have hmod : n <<< 4 % 256 = n <<< 4 := by
    have h2 : n <<< 4 = n * 16 := by simp [Nat.shiftLeft_eq]
    omega
  rw [insertRune_hex_eq w ch n hfocus hn]
  refine ⟨fun hp => ?_, fun hp => ?_, fun hp ch2 m hm => ?_⟩
  · rw [insertByte_latch w .insert n hp, hmod]
  · exact insertByte_commit_insert w n hp
  · rw [insertByte_latch w .insert n hp, hmod]
    set w1 : Window := { w with pending := true, pendingByte := n <<< 4 } with hw1
    rw [insertRune_hex_eq w1 ch2 m hfocus hm]
    have hc := insertByte_commit_insert w1 m rfl
    exact ⟨hc.1, hc.2.1, hc.2.2.1⟩

/-- Witness for C1: on a concrete window, the runes `'a','b'` insert the
single byte `0xab` and advance cursor and length by one. -/
theorem insertRune_hex_nibble_accumulator_witness :
    ((win0.insertRune .insert 'a').insertRune .insert 'b').buffer =
      win0.buffer.insert win0.cursor 0xab ∧
    ((win0.insertRune .insert 'a').insertRune .insert 'b').cursor = win0.cursor + 1 ∧
    ((win0.insertRune .insert 'a').insertRune .insert 'b').length = win0.length + 1 := by
  have h := (insertRune_hex_nibble_accumulator win0 'a' 10 rfl
      (Or.inr ⟨by decide, by decide, by decide⟩)).2.2 rfl 'b' 11
      (Or.inr ⟨by decide, by decide, by decide⟩)
  have hv : (10 : Nat) <<< 4 ||| 11 = 0xab := by decide
  rw [hv] at h
  exact h

/-- C10: the result of a `CursorHead` event does not depend on its count:
any two `CursorHead` events produce the same state from the same window,
namely the cursor moved to the first column of its row with every other
field unchanged. -/
theorem cursorHead_ignores_count (w : Window) (e1 e2 : Event)
    (h1 : e1.type = .cursorHead) (h2 : e2.type = .cursorHead) :
    dispatch e1 w = dispatch e2 w ∧
    dispatch e1 w = { w with cursor := w.cursor - w.cursor % w.width } := by
  obtain ⟨t1, m1, c1, r1, a1⟩ := e1
  obtain ⟨t2, m2, c2, r2, a2⟩ := e2
  simp only at h1 h2
  subst h1
  subst h2
  exact ⟨rfl, rfl⟩

/-- Witness for C10: two `CursorHead` events with counts 3 and 7 coincide
on a concrete window. -/
theorem cursorHead_ignores_count_witness :
    dispatch ⟨.cursorHead, .normal, 3, 'x', []⟩ win0 =
      dispatch ⟨.cursorHead, .insert, 7, 'y', []⟩ win0 ∧
    dispatch ⟨.cursorHead, .normal, 3, 'x', []⟩ win0 =
      { win0 with cursor := win0.cursor - win0.cursor % win0.width } :=
  cursorHead_ignores_count win0 _ _ rfl rfl

/-- C9: an `EventUndo` or `EventRedo` whose mode is not normal aborts the
event loop (modelled as `none`), and under the precondition that undo and
redo events only ever carry normal mode, every event is handled without
the abort. -/
theorem undo_redo_mode_contract (e : Event) (w : Window) :
    ((e.type = .undo ∨ e.type = .redo) → e.mode ≠ .normal → runStep e w = none) ∧
    (((e.type = .undo ∨ e.type = .redo) → e.mode = .normal) →
      (runStep e w).isSome = true) := by
  constructor
  · intro ht hm
    have hp : panics e := ⟨ht, hm⟩
    simp [runStep, hp]
  · intro hc
    unfold runStep
    split
    · rename_i hp
      exact absurd (hc hp.1) hp.2
    · simp

/-- Witness for C9: an undo event in insert mode aborts on a concrete
window; an undo event in normal mode is handled. -/
theorem undo_redo_mode_contract_witness :
    runStep ⟨.undo, .insert, 1, 'x', []⟩ win0 = none ∧
    (runStep ⟨.undo, .normal, 1, 'x', []⟩ win0).isSome = true :=
  ⟨(undo_redo_mode_contract ⟨.undo, .insert, 1, 'x', []⟩ win0).1 (Or.inl rfl) (by decide),
   (undo_redo_mode_contract ⟨.undo, .normal, 1, 'x', []⟩ win0).2 (fun _ => rfl)⟩

theorem undoStep_none (w : Window) (h2 : History) (h : w.history.undo = (none, h2)) :
    w.undoStep = w := by
  unfold Window.undoStep
  rw [h]

theorem undoStep_some (w : Window) (en : HEntry) (h2 : History)
    (h : w.history.undo = (some en, h2)) :
    w.undoStep = { w with buffer := en.buffer, offset := en.offset, cursor := en.cursor,
                          length := en.buffer.len, history := h2 } := by
  unfold Window.undoStep
  rw [h]

theorem redoStep_none (w : Window) (h2 : History) (h : w.history.redo = (none, h2)) :
    w.redoStep = w := by
  unfold Window.redoStep
  rw [h]

theorem redoStep_some (w : Window) (en : HEntry) (h2 : History)
    (h : w.history.redo = (some en, h2)) :
    w.redoStep = { w with buffer := en.buffer, offset := en.offset, cursor := en.cursor,
                          length := en.buffer.len, history := h2 } := by
  unfold Window.redoStep
  rw [h]

theorem undoIter_eq_iterate (n : Nat) (w : Window) :
    undoIter n w = Window.undoStep^[n] w := by
  induction n generalizing w with
  | zero => rfl
  | succ n ih =>
    rw [Function.iterate_succ_apply]
    rcases h : w.history.undo with ⟨o, h2⟩
    rcases o with _ | en
    · rw [undoStep_none w h2 h]
      unfold undoIter
      rw [h]
      exact (Function.iterate_fixed (undoStep_none w h2 h) n).symm
    · rw [undoStep_some w en h2 h]
      unfold undoIter
      rw [h]
      exact ih _

theorem redoIter_eq_iterate (n : Nat) (w : Window) :
    redoIter n w = Window.redoStep^[n] w := by
  induction n generalizing w with
  | zero => rfl
  | succ n ih =>
    rw [Function.iterate_succ_apply]
    rcases h : w.history.redo with ⟨o, h2⟩
    rcases o with _ | en
    · rw [redoStep_none w h2 h]
      unfold redoIter
      rw [h]
      exact (Function.iterate_fixed (redoStep_none w h2 h) n).symm
    · rw [redoStep_some w en h2 h]
      unfold redoIter
      rw [h]
      exact ih _

/-- C3: `undo` (resp. `redo`) iterates the single restore step exactly
`max(count, 1)` times; a successful step replaces buffer, offset and
cursor by the history's values and recomputes the length from the
restored buffer; once the history returns no entry the step is the
identity, so undo or redo past the ends leaves the window - buffer,
offset, cursor and length included - unchanged. -/
theorem undo_redo_iterate (w : Window) (count : Int) :
    w.undo count = Window.undoStep^[(max count 1).toNat] w ∧
    w.redo count = Window.redoStep^[(max count 1).toNat] w ∧
    (∀ en h2, w.history.undo = (some en, h2) →
      w.undoStep = { w with buffer := en.buffer, offset := en.offset, cursor := en.cursor,
                            length := en.buffer.len, history := h2 }) ∧
    (∀ h2, w.history.undo = (none, h2) → w.undo count = w) ∧
    (∀ en h2, w.history.redo = (some en, h2) →
      w.redoStep = { w with buffer := en.buffer, offset := en.offset, cursor := en.cursor,
                            length := en.buffer.len, history := h2 }) ∧
    (∀ h2, w.history.redo = (none, h2) → w.redo count = w) := by
  have hk : (max count 1).toNat = ((max count 1).toNat - 1) + 1 := by
    have h1 : (1 : Int) ≤ max count 1 := le_max_right _ _
    omega
  refine ⟨undoIter_eq_iterate _ w, redoIter_eq_iterate _ w,
    fun en h2 h => undoStep_some w en h2 h, fun h2 h => ?_,
    fun en h2 h => redoStep_some w en h2 h, fun h2 h => ?_⟩
  · unfold Window.undo
    rw [hk]
    unfold undoIter
    rw [h]
  · unfold Window.redo
    rw [hk]
    unfold redoIter
    rw [h]

/-- Witness for C3: undo and redo past the ends of a one-entry history are
no-ops, and an undo on a two-entry history restores the first snapshot. -/
theorem undo_redo_iterate_witness :
    win0.undo 3 = win0 ∧ win0.redo 2 = win0 ∧
    winH.undoStep =
      { winH with buffer := bufHex, offset := 0, cursor := 0, length := bufHex.len,
                  history := ⟨[⟨bufHex, 0, 0⟩, ⟨bufRep4, 0, 5⟩], 0⟩ } :=
  ⟨(undo_redo_iterate win0 3).2.2.2.1 win0.history rfl,
   (undo_redo_iterate win0 2).2.2.2.2.2 win0.history rfl,
   (undo_redo_iterate winH 1).2.2.1 ⟨bufHex, 0, 0⟩ _ rfl⟩

/-- C6: a `JumpTo` event parses a decimal offset out of the 50 bytes on
each side of the cursor (whitespace skipped, maximal contiguous digit
run); when the parsed value lies strictly inside `(0, length)` it pushes
the current `(cursor, offset)` pair onto the jump stack, moves the cursor
there and recomputes the offset with a `height/3` margin, and in every
other case - the parse yields nothing, or the value is outside the open
interval - cursor, offset and the jump stack are all unchanged. -/
theorem jumpTo_push_move_or_noop (w : Window) :
    (∀ v, w.jumpParse = some v → 0 < v → v < w.length →
      w.jumpTo = { w with stack := w.stack ++ [⟨w.cursor, w.offset⟩], cursor := v,
                          offset := max (v - v % w.width - max (w.height / 3) 0 * w.width) 0 }) ∧
    (w.jumpParse = none → w.jumpTo = w) ∧
    (∀ v, w.jumpParse = some v → v ≤ 0 ∨ w.length ≤ v → w.jumpTo = w) := by
  refine ⟨fun v h h1 h2 => ?_, fun h => ?_, fun v h hout => ?_⟩
  · unfold Window.jumpTo
    rw [h]
    simp only [if_neg (by omega : ¬(v ≤ 0 ∨ w.length ≤ v))]
  · unfold Window.jumpTo
    rw [h]
  · unfold Window.jumpTo
    rw [h]
    simp only [if_pos hout]

/-- Witness for C6: on `winJ` the jump parses 7 and moves there pushing
`(50, 48)`; on `win0` (nothing but the zero-filled tail under the scan)
the jump is a no-op. -/
theorem jumpTo_push_move_or_noop_witness :
    winJ.jumpTo = { winJ with stack := [⟨50, 48⟩], cursor := 7, offset := 0 } ∧
    win0.jumpTo = win0 := by
  constructor
  · rw [(jumpTo_push_move_or_noop winJ).1 7 (by decide) (by decide) (by decide)]
    decide
  · exact (jumpTo_push_move_or_noop win0).2.1 (by decide)

set_option maxRecDepth 100000 in
theorem scenarioF_cursor : (winS.searchForward [0x37, 0x38, 0x39]).cursor = 7 := by
  decide

set_option maxRecDepth 100000 in
theorem scenarioF_cursor_back : (winSB.searchBackward [0x33, 0x34, 0x35]).cursor = 3 := by
  decide

/-- C7: a search hit moves the cursor to the match position and adjusts
the offset to bring it into view, a miss changes nothing; concretely, on
`"0123456789abcdef"` a forward search for `"789"` from cursor 0 lands on
7 and a backward search for `"345"` from cursor 15 lands on 3. -/
theorem search_moves_cursor_on_hit (w : Window) (target : List Nat) (hc : 0 ≤ w.cursor) :
    (∀ i, listIndex (fwdWindowBytes w target) target = some i →
      w.searchForward target =
        { w with cursor := w.cursor + 1 + (i : Int),
                 offset :=
                   if w.cursor + 1 + (i : Int) ≥ w.offset + w.height * w.width then
                     (w.cursor + 1 + (i : Int) - w.height * w.width + w.width + 1) / w.width * w.width
                   else w.offset }) ∧
    (listIndex (fwdWindowBytes w target) target = none → w.searchForward target = w) ∧
    (∀ i, listLastIndex (bwdWindowBytes w target) target = some i →
      w.searchBackward target =
        { w with cursor := bwdBase w target + (i : Int),
                 offset :=
                   if bwdBase w target + (i : Int) < w.offset then
                     (bwdBase w target + (i : Int)) / w.width * w.width
                   else w.offset }) ∧
    (listLastIndex (bwdWindowBytes w target) target = none → w.searchBackward target = w) ∧
    ((winS.searchForward [0x37, 0x38, 0x39]).cursor = 7 ∧
      (winSB.searchBackward [0x33, 0x34, 0x35]).cursor = 3) := by
  refine ⟨fun i hi => ?_, fun hi => ?_, fun i hi => ?_, fun hi => ?_, scenarioF_cursor, scenarioF_cursor_back⟩
  · have hb : ¬w.cursor + 1 < 0 := by omega
    unfold fwdWindowBytes searchSize at hi
    unfold Window.searchForward
    simp only [Window.readBytes, if_neg hb]
    rw [hi]
    split
    · rename_i hcond
      exact absurd hcond (by simp)
    · rename_i i2 hcond
      injection hcond with hh
      subst hh
      split <;> rfl
  · have hb : ¬w.cursor + 1 < 0 := by omega
    unfold fwdWindowBytes searchSize at hi
    unfold Window.searchForward
    simp only [Window.readBytes, if_neg hb]
    rw [hi]
  · have hb : ¬bwdBase w target < 0 := by
      have h0 : (0 : Int) ≤ bwdBase w target := le_max_left _ _
      omega
    unfold bwdWindowBytes bwdBase searchSize at hi
    unfold bwdBase searchSize at hb ⊢
    unfold Window.searchBackward
    simp only [Window.readBytes, if_neg hb]
    rw [hi]
    split
    · rename_i hcond
      exact absurd hcond (by simp)
    · rename_i i2 hcond
      injection hcond with hh
      subst hh
      split <;> rfl
  · have hb : ¬bwdBase w target < 0 := by
      have h0 : (0 : Int) ≤ bwdBase w target := le_max_left _ _
      omega
    unfold bwdWindowBytes bwdBase searchSize at hi
    unfold bwdBase searchSize at hb
    unfold Window.searchBackward
    simp only [Window.readBytes, if_neg hb]
    rw [hi]

/-- Witness for C7: the concrete scenario windows satisfy the cursor
hypothesis, and the searches land on 7 and 3. -/
theorem search_moves_cursor_on_hit_witness :
    (0 : Int) ≤ winS.cursor ∧ (0 : Int) ≤ winSB.cursor ∧
    (winS.searchForward [0x37, 0x38, 0x39]).cursor = 7 ∧
    (winSB.searchBackward [0x33, 0x34, 0x35]).cursor = 3 :=
  ⟨by decide, by decide,
   (search_moves_cursor_on_hit winS [0x37, 0x38, 0x39] (by decide)).2.2.2.2.1,
   (search_moves_cursor_on_hit winSB [0x33, 0x34, 0x35] (by decide)).2.2.2.2.2⟩

/-- C2: the history push policy after one processed event, with `changed`
meaning the tick moved: undo and redo events never push; a push of the
post-event buffer, offset and cursor happens exactly when the event's
mode is normal and it changed, or it is `ExitInsert` and the previous
event changed; a push of the post-event buffer with the pre-event offset
and cursor happens exactly when none of the former held, the mode is
non-normal, the previous event changed, this one did not, and the event
type lies in the navigation range `CursorUp ... JumpBack`; otherwise
nothing is pushed; and afterwards `prevChanged` records `changed`. -/
theorem history_push_policy (e : Event) (w : Window) (hnp : ¬panics e) :
    ∃ w2, runStep e w = some w2 ∧
      w2.prevChanged = decide ((dispatch e w).changedTick ≠ w.changedTick) ∧
      w2 = { dispatch e w with history := w2.history, prevChanged := w2.prevChanged } ∧
      ((e.type = .undo ∨ e.type = .redo) → w2.history = (dispatch e w).history) ∧
      (¬(e.type = .undo ∨ e.type = .redo) →
        (((e.mode = .normal ∧ (dispatch e w).changedTick ≠ w.changedTick) ∨
            (e.type = .exitInsert ∧ w.prevChanged = true)) →
          w2.history =
            (dispatch e w).history.push (dispatch e w).buffer (dispatch e w).offset (dispatch e w).cursor) ∧
        ((¬((e.mode = .normal ∧ (dispatch e w).changedTick ≠ w.changedTick) ∨
              (e.type = .exitInsert ∧ w.prevChanged = true)) ∧
            e.mode ≠ .normal ∧ w.prevChanged = true ∧
            (dispatch e w).changedTick = w.changedTick ∧ e.type.isNav = true) →
          w2.history = (dispatch e w).history.push (dispatch e w).buffer w.offset w.cursor) ∧
        ((¬((e.mode = .normal ∧ (dispatch e w).changedTick ≠ w.changedTick) ∨
              (e.type = .exitInsert ∧ w.prevChanged = true)) ∧
            ¬(e.mode ≠ .normal ∧ w.prevChanged = true ∧
              ¬(dispatch e w).changedTick ≠ w.changedTick ∧ e.type.isNav = true)) →
          w2.history = (dispatch e w).history)) := by
  unfold runStep
  rw [if_neg hnp]
  refine ⟨_, rfl, ?_, ?_, fun hur => ?_, fun hur => ⟨fun h1 => ?_, fun h2 => ?_, fun h3 => ?_⟩⟩
  · rfl
  · by_cases hur : e.type = .undo ∨ e.type = .redo
    · simp only [if_pos hur]
    · simp only [if_neg hur]
      by_cases h1 : (e.mode = .normal ∧ (dispatch e w).changedTick ≠ w.changedTick) ∨
          (e.type = .exitInsert ∧ w.prevChanged = true)
      · simp only [if_pos h1]
      · simp only [if_neg h1]
        by_cases h2 : e.mode ≠ .normal ∧ w.prevChanged = true ∧
            ¬(dispatch e w).changedTick ≠ w.changedTick ∧ e.type.isNav = true
        · simp only [if_pos h2]
        · simp only [if_neg h2]
  · simp only [if_pos hur]
  · simp only [if_neg hur, if_pos h1]
  · have hcond : e.mode ≠ Mode.normal ∧ w.prevChanged = true ∧
        ¬(dispatch e w).changedTick ≠ w.changedTick ∧ e.type.isNav = true :=
      ⟨h2.2.1, h2.2.2.1, by simpa using h2.2.2.2.1, h2.2.2.2.2⟩
    simp only [if_neg hur, if_neg h2.1, if_pos hcond]
  · simp only [if_neg hur, if_neg h3.1, if_neg h3.2]

/-- Witness for C2: a normal-mode `DeleteByte` on the concrete window
changes content, so the post-event state is pushed. -/
theorem history_push_policy_witness :
    ∃ w2, runStep ⟨.deleteByte, .normal, 1, 'x', []⟩ win0 = some w2 ∧
      w2.history =
        (dispatch ⟨.deleteByte, .normal, 1, 'x', []⟩ win0).history.push
          (dispatch ⟨.deleteByte, .normal, 1, 'x', []⟩ win0).buffer
          (dispatch ⟨.deleteByte, .normal, 1, 'x', []⟩ win0).offset
          (dispatch ⟨.deleteByte, .normal, 1, 'x', []⟩ win0).cursor := by
  obtain ⟨w2, hrun, hprev, hrec, hur, hpol⟩ :=
    history_push_policy ⟨.deleteByte, .normal, 1, 'x', []⟩ win0 (by decide)
  exact ⟨w2, hrun, (hpol (by decide)).1 (Or.inl ⟨rfl, by decide⟩)⟩

theorem chainFrom_append (l1 l2 : List RR) (lo : Int)
    (h1 : chainFrom lo l1) (h2 : chainFrom (endOf lo l1) l2) :
    chainFrom lo (l1 ++ l2) := by
  induction l1 generalizing lo with
  | nil => exact h2
  | cons r rest ih =>
    obtain ⟨ha, hb, hc⟩ := h1
    exact ⟨ha, hb, ih r.max hc h2⟩

theorem insTail (i : Int) (c : Nat) (l : List RR) (m : Int)
    (hch : chainFrom m l) (hi : i < m) :
    chainFrom (m + 1) (l.flatMap (insRR i c)) ∧
      endOf (m + 1) (l.flatMap (insRR i c)) = endOf m l + 1 := by
  induction l generalizing m with
  | nil => exact ⟨trivial, rfl⟩
  | cons r rest ih =>
    obtain ⟨ha, hb, hc⟩ := hch
    have hbr : insRR i c r = [⟨r.min + 1, r.max + 1, r.src, r.diff - 1⟩] := by
      unfold insRR
      rw [if_neg (by first | omega | (dsimp only; omega) | dsimp only), if_pos (by first | omega | (dsimp only; omega) | dsimp only)]
    rw [List.flatMap_cons, hbr]
    have h2 := ih r.max hc (by first | omega | (dsimp only; omega) | dsimp only)
    exact ⟨⟨by first | omega | (dsimp only; omega) | dsimp only, by simpa using hb, h2.1⟩, h2.2⟩

theorem insMain (i : Int) (c : Nat) (l : List RR) (lo : Int)
    (hch : chainFrom lo l) (hlo : lo ≤ i) (hhi : i < endOf lo l) :
    chainFrom lo (l.flatMap (insRR i c)) ∧
      endOf lo (l.flatMap (insRR i c)) = endOf lo l + 1 := by
  induction l generalizing lo with
  | nil => exact absurd hhi (by simpa [endOf] using hlo)
  | cons r rest ih =>
    obtain ⟨ha, hb, hc⟩ := hch
    by_cases hcase : r.max ≤ i
    · have hbr : insRR i c r = [r] := by
        unfold insRR
        rw [if_pos hcase]
      rw [List.flatMap_cons, hbr]
      have h2 := ih r.max hc hcase hhi
      exact ⟨⟨ha, hb, h2.1⟩, h2.2⟩
    · push_neg at hcase
      have htail := insTail i c rest r.max hc (by first | omega | (dsimp only; omega) | dsimp only)
      have hbr : insRR i c r =
          (if r.min < i then [⟨r.min, i, r.src, r.diff⟩] else []) ++
            ⟨i, i + 1, .inMemory [c], -i⟩ :: [⟨i + 1, r.max + 1, r.src, r.diff - 1⟩] := by
        unfold insRR
        rw [if_neg (by first | omega | (dsimp only; omega) | dsimp only), if_neg (by first | omega | (dsimp only; omega) | dsimp only)]
      rw [List.flatMap_cons, hbr]
      by_cases hpre : r.min < i
      · rw [if_pos hpre]
        simp only [List.cons_append, List.singleton_append, List.nil_append]
        exact ⟨⟨by first | omega | (dsimp only; omega) | dsimp only, by first | omega | (dsimp only; omega) | dsimp only, by first | omega | (dsimp only; omega) | dsimp only, by first | omega | (dsimp only; omega) | dsimp only, by first | omega | (dsimp only; omega) | dsimp only, by first | omega | (dsimp only; omega) | dsimp only, htail.1⟩,
          by simpa [endOf] using htail.2⟩
      · rw [if_neg hpre]
        simp only [List.cons_append, List.singleton_append, List.nil_append]
        exact ⟨⟨by first | omega | (dsimp only; omega) | dsimp only, by first | omega | (dsimp only; omega) | dsimp only, by first | omega | (dsimp only; omega) | dsimp only, by first | omega | (dsimp only; omega) | dsimp only, htail.1⟩,
          by simpa [endOf] using htail.2⟩

theorem delTail (i : Int) (l : List RR) (m : Int)
    (hch : chainFrom m l) (hi : i < m) :
    chainFrom (m - 1) (l.flatMap (delRR i)) ∧
      endOf (m - 1) (l.flatMap (delRR i)) = endOf m l - 1 := by
  induction l generalizing m with
  | nil => exact ⟨trivial, rfl⟩
  | cons r rest ih =>
    obtain ⟨ha, hb, hc⟩ := hch
    have hbr : delRR i r = [⟨r.min - 1, r.max - 1, r.src, r.diff + 1⟩] := by
      unfold delRR
      rw [if_neg (by first | omega | (dsimp only; omega) | dsimp only), if_pos (by first | omega | (dsimp only; omega) | dsimp only)]
    rw [List.flatMap_cons, hbr]
    have h2 := ih r.max hc (by first | omega | (dsimp only; omega) | dsimp only)
    exact ⟨⟨by first | omega | (dsimp only; omega) | dsimp only, by simpa using hb, h2.1⟩, h2.2⟩

theorem delMain (i : Int) (l : List RR) (lo : Int)
    (hch : chainFrom lo l) (hlo : lo ≤ i) (hhi : i < endOf lo l) :
    chainFrom lo (l.flatMap (delRR i)) ∧
      endOf lo (l.flatMap (delRR i)) = endOf lo l - 1 := by
  induction l generalizing lo with
  | nil => exact absurd hhi (by simpa [endOf] using hlo)
  | cons r rest ih =>
    obtain ⟨ha, hb, hc⟩ := hch
    by_cases hcase : r.max ≤ i
    · have hbr : delRR i r = [r] := by
        unfold delRR
        rw [if_pos hcase]
      rw [List.flatMap_cons, hbr]
      have h2 := ih r.max hc hcase hhi
      exact ⟨⟨ha, hb, h2.1⟩, h2.2⟩
    · push_neg at hcase
      have htail := delTail i rest r.max hc (by first | omega | (dsimp only; omega) | dsimp only)
      have hbr : delRR i r =
          (if r.min < i then [⟨r.min, i, r.src, r.diff⟩] else []) ++
            (if i + 1 < r.max then [⟨i, r.max - 1, r.src, r.diff + 1⟩] else []) := by
        unfold delRR
        rw [if_neg (by first | omega | (dsimp only; omega) | dsimp only), if_neg (by first | omega | (dsimp only; omega) | dsimp only)]
      rw [List.flatMap_cons, hbr]
      by_cases hpre : r.min < i <;> by_cases hsuf : i + 1 < r.max
      · rw [if_pos hpre, if_pos hsuf]
        simp only [List.cons_append, List.singleton_append, List.nil_append]
        exact ⟨⟨by first | omega | (dsimp only; omega) | dsimp only, by first | omega | (dsimp only; omega) | dsimp only, by first | omega | (dsimp only; omega) | dsimp only, by first | omega | (dsimp only; omega) | dsimp only, by simpa using htail.1⟩,
          by simpa [endOf] using htail.2⟩
      · rw [if_pos hpre, if_neg hsuf]
        simp only [List.cons_append, List.singleton_append, List.nil_append,
          List.append_nil]
        have hm : r.max - 1 = i := by first | omega | (dsimp only; omega) | dsimp only
        refine ⟨⟨by first | omega | (dsimp only; omega) | dsimp only, by first | omega | (dsimp only; omega) | dsimp only, ?_⟩, ?_⟩
        · have := htail.1
          rw [hm] at this
          exact this
        · have := htail.2
          rw [hm] at this
          simpa [endOf] using this
      · rw [if_neg hpre, if_pos hsuf]
        simp only [List.cons_append, List.singleton_append, List.nil_append]
        exact ⟨⟨by first | omega | (dsimp only; omega) | dsimp only, by first | omega | (dsimp only; omega) | dsimp only, by simpa using htail.1⟩,
          by simpa [endOf] using htail.2⟩
      · rw [if_neg hpre, if_neg hsuf]
        simp only [List.nil_append]
        have hm : r.max - 1 = lo := by first | omega | (dsimp only; omega) | dsimp only
        refine ⟨?_, ?_⟩
        · have := htail.1
          rw [hm] at this
          exact this
        · have := htail.2
          rw [hm] at this
          simpa [endOf] using this

theorem insert_len_WF (b : Buffer) (i : Int) (c : Nat)
    (hWF : b.WF) (h0 : 0 ≤ i) (hle : i ≤ b.len) :
    (b.insert i c).len = b.len + 1 ∧ (b.insert i c).WF := by
  unfold Buffer.insert
  by_cases he : i = b.len
  · rw [if_pos he]
    refine ⟨?_, ?_⟩
    · simp only [Buffer.len, endOf_append, endOf]
      unfold Buffer.len at he
      omega
    · refine chainFrom_append _ _ _ hWF ?_
      unfold Buffer.len at he
      exact ⟨by first | omega | (dsimp only; omega) | dsimp only, by first | omega | (dsimp only; omega) | dsimp only, trivial⟩
  · rw [if_neg he]
    have hlt : i < endOf 0 b.rrs := by
      unfold Buffer.len at hle he
      omega
    have h := insMain i c b.rrs 0 hWF h0 hlt
    exact ⟨h.2, h.1⟩

theorem delete_len_WF (b : Buffer) (i : Int)
    (hWF : b.WF) (h0 : 0 ≤ i) (hlt : i < b.len) :
    (b.delete i).len = b.len - 1 ∧ (b.delete i).WF := by
  unfold Buffer.delete
  have h := delMain i b.rrs 0 hWF h0 (by unfold Buffer.len at hlt; omega)
  exact ⟨h.2, h.1⟩

theorem emod_facts (a b : Int) (ha : 0 ≤ a) (hb : 0 < b) :
    0 ≤ a % b ∧ a % b < b ∧ a % b ≤ a := by
  have h1 : 0 ≤ a % b := Int.emod_nonneg _ (by omega)
  have h2 : a % b < b := Int.emod_lt_of_pos _ hb
  refine ⟨h1, h2, ?_⟩
  rcases lt_or_le a b with hh | hh
  · rw [Int.emod_eq_of_lt ha hh]
  · omega

theorem extInv_cursorLeft (w : Window) (count : Int) (hw : 0 < w.width)
    (h : ExtInv w) : ExtInv (w.cursorLeft count) := by
  obtain ⟨hWF, hc0, hcl, hext, hnext⟩ := h
  obtain ⟨h1, h2, h3⟩ := emod_facts w.cursor w.width hc0 hw
  unfold Window.cursorLeft ExtInv
  rcases hEx : w.extending <;> rcases hAp : w.append <;> simp_all <;>
    first
      | omega
      | (split_ifs <;> simp_all <;> omega)
      | (split_ifs <;> omega)

theorem extInv_cursorPrev (w : Window) (count : Int) (hw : 0 < w.width)
    (h : ExtInv w) : ExtInv (w.cursorPrev count) := by
  obtain ⟨hWF, hc0, hcl, hext, hnext⟩ := h
  obtain ⟨h1, h2, h3⟩ := emod_facts w.cursor w.width hc0 hw
  unfold Window.cursorPrev ExtInv
  dsimp only
  rcases hEx : w.extending <;> rcases hAp : w.append <;>
    simp_all only [Bool.false_eq_true, Bool.true_eq_false, false_implies, true_implies,
      false_and, and_false, true_and, and_true, not_true, not_false_iff, ne_eq,
      if_true, if_false] <;>
    split_ifs <;>
    simp_all only [Bool.false_eq_true, Bool.true_eq_false, false_implies, true_implies,
      false_and, and_false, true_and, and_true, not_true, not_false_iff, ne_eq] <;>
    omega

theorem extInv_exitInsert (w : Window) (h : ExtInv w) : ExtInv w.exitInsert := by
  obtain ⟨hWF, hc0, hcl, hext, hnext⟩ := h
  unfold Window.exitInsert ExtInv
  dsimp only
  rcases hEx : w.extending <;> rcases hAp : w.append <;>
    simp_all only [Bool.false_eq_true, Bool.true_eq_false, false_implies, true_implies,
      false_and, and_false, true_and, and_true, not_true, not_false_iff, ne_eq,
      if_true, if_false] <;>
    (try split_ifs) <;>
    simp_all only [Bool.false_eq_true, Bool.true_eq_false, false_implies, true_implies,
      false_and, and_false, true_and, and_true, not_true, not_false_iff, ne_eq] <;>
    omega

theorem extInv_offset_irrelevant (w : Window) (x : Int) (h : ExtInv w) :
    ExtInv { w with offset := x } := h

theorem extInv_cursorRight (w : Window) (mode : Mode) (count : Int) (hw : 0 < w.width)
    (h : ExtInv w) : ExtInv (w.cursorRight mode count) := by
  obtain ⟨hWF, hc0, hcl, hext, hnext⟩ := h
  obtain ⟨h1, h2, h3⟩ := emod_facts w.cursor w.width hc0 hw
  unfold Window.cursorRight
  by_cases hm : mode = Mode.normal
  · rw [if_pos hm]
    refine ⟨hWF, ?_, ?_, ?_, ?_⟩ <;> dsimp only
    · omega
    · omega
    · intro hEx
      obtain ⟨hap, hlen, hcur⟩ := hext hEx
      exact ⟨hap, by omega, by omega⟩
    · intro hEx
      have hlen := hnext hEx
      omega
  · rw [if_neg hm]
    cases hEx : w.extending
    · rw [if_pos (by simp [hEx])]
      have hlen := hnext hEx
      try dsimp only
      split
      · rename_i hC
        try dsimp only at hC
        refine ⟨hWF, ?_, ?_, ?_, ?_⟩ <;> dsimp only
        · omega
        · omega
        · intro _
          exact ⟨rfl, by omega, by omega⟩
        · intro hcon
          exact absurd hcon (by simp)
      · rename_i hC
        try dsimp only at hC
        refine ⟨hWF, ?_, ?_, ?_, ?_⟩ <;> dsimp only
        · omega
        · omega
        · intro hcon
          exact absurd hcon (by simp [hEx])
        · intro _
          omega
    · rw [if_neg (by simp [hEx])]
      exact ⟨hWF, hc0, hcl, hext, hnext⟩

theorem extInv_cursorNext (w : Window) (mode : Mode) (count : Int) (hw : 0 < w.width)
    (h : ExtInv w) : ExtInv (w.cursorNext mode count) := by
  obtain ⟨hWF, hc0, hcl, hext, hnext⟩ := h
  unfold Window.cursorNext
  dsimp only
  have hmain : ∀ w1 : Window, ExtInv w1 →
      ExtInv (if w1.cursor ≥ w1.offset + w1.height * w1.width then
        { w1 with offset := (w1.cursor - w1.height * w1.width + w1.width) / w1.width * w1.width }
      else w1) := by
    intro w1 h1
    split
    · exact h1
    · exact h1
  apply hmain
  by_cases hm : mode = Mode.normal
  · rw [if_pos hm]
    refine ⟨hWF, ?_, ?_, ?_, ?_⟩ <;> dsimp only
    · omega
    · omega
    · intro hEx
      obtain ⟨hap, hlen, hcur⟩ := hext hEx
      exact ⟨hap, by omega, by omega⟩
    · intro hEx
      have hlen := hnext hEx
      omega
  · rw [if_neg hm]
    cases hEx : w.extending
    · rw [if_pos (by simp [hEx])]
      have hlen := hnext hEx
      try dsimp only
      split
      · rename_i hC
        try dsimp only at hC
        refine ⟨hWF, ?_, ?_, ?_, ?_⟩ <;> dsimp only
        · omega
        · omega
        · intro _
          exact ⟨rfl, by omega, by omega⟩
        · intro hcon
          exact absurd hcon (by simp)
      · rename_i hC
        try dsimp only at hC
        refine ⟨hWF, ?_, ?_, ?_, ?_⟩ <;> dsimp only
        · omega
        · omega
        · intro hcon
          exact absurd hcon (by simp [hEx])
        · intro _
          omega
    · rw [if_neg (by simp [hEx])]
      exact ⟨hWF, hc0, hcl, hext, hnext⟩

theorem insertByte_insert_width (w : Window) (b : Nat) :
    ((w.insertByte .insert b).width = w.width ∧
      (w.insertByte .insert b).focusText = w.focusText) := by
  unfold Window.insertByte
  split
  · constructor <;> (dsimp only; split <;> rfl)
  · exact ⟨rfl, rfl⟩

theorem extInv_insertByte_insert (w : Window) (b : Nat) (hw : 0 < w.width)
    (h : ExtInv w) : ExtInv (w.insertByte .insert b) := by
  obtain ⟨hWF, hc0, hcl, hext, hnext⟩ := h
  unfold Window.insertByte
  split
  · rename_i hp
    have hcb : w.cursor ≤ w.buffer.len := by
      cases hEx : w.extending
      · rw [← hnext hEx]
        exact hcl
      · obtain ⟨_, hlen, hcur⟩ := hext hEx
        omega
    obtain ⟨hil, hiw⟩ := insert_len_WF w.buffer w.cursor (w.pendingByte ||| b) hWF hc0 hcb
    have hmain : ∀ w1 : Window, ExtInv w1 →
        ExtInv { (if w1.cursor ≥ w1.offset + w1.height * w1.width then
            { w1 with offset := (w1.cursor - w1.height * w1.width + w1.width) / w1.width * w1.width }
          else w1) with pending := false, pendingByte := 0 } := by
      intro w1 h1
      obtain ⟨a1, a2, a3, a4, a5⟩ := h1
      split
      · exact ⟨a1, a2, a3, a4, a5⟩
      · exact ⟨a1, a2, a3, a4, a5⟩
    apply hmain
    unfold Window.insert
    refine ⟨hiw, ?_, ?_, ?_, ?_⟩ <;> dsimp only
    · omega
    · omega
    · intro hEx
      obtain ⟨hap, hlen, hcur⟩ := hext hEx
      exact ⟨hap, by omega, by omega⟩
    · intro hEx
      have hlen := hnext hEx
      omega
  · exact ⟨hWF, hc0, hcl, hext, hnext⟩

theorem extInv_insertRune_insert (w : Window) (ch : Char) (hw : 0 < w.width)
    (h : ExtInv w) : ExtInv (w.insertRune .insert ch) := by
  unfold Window.insertRune
  rw [if_pos (Or.inl rfl)]
  split
  · rename_i hf
    generalize utf8Encode ch.toNat = bs
    induction bs generalizing w with
    | nil => exact h
    | cons b rest ih =>
      simp only [List.foldl_cons]
      have hW1 := (insertByte_insert_width w (b >>> 4)).1
      have hw2 : 0 < ((w.insertByte .insert (b >>> 4)).insertByte .insert (b &&& 0x0f)).width := by
        rw [(insertByte_insert_width _ _).1, hW1]
        exact hw
      have hf2 : ((w.insertByte .insert (b >>> 4)).insertByte .insert (b &&& 0x0f)).focusText = true := by
        rw [(insertByte_insert_width _ _).2, (insertByte_insert_width _ _).2]
        exact hf
      exact ih _ hw2
        (extInv_insertByte_insert _ _ (by rw [hW1]; exact hw)
          (extInv_insertByte_insert w _ hw h)) hf2
  · split
    · exact extInv_insertByte_insert w _ hw h
    · split
      · exact extInv_insertByte_insert w _ hw h
      · exact h

theorem extInv_backspace (w : Window) (h : ExtInv w) : ExtInv w.backspace := by
  obtain ⟨hWF, hc0, hcl, hext, hnext⟩ := h
  unfold Window.backspace
  split
  · exact ⟨hWF, hc0, hcl, hext, hnext⟩
  · split
    · rename_i hp hcpos
      have hcb : w.cursor ≤ w.buffer.len := by
        cases hEx : w.extending
        · rw [← hnext hEx]
          exact hcl
        · obtain ⟨_, hlen, hcur⟩ := hext hEx
          omega
      obtain ⟨hdl, hdw⟩ := delete_len_WF w.buffer (w.cursor - 1) hWF (by omega) (by omega)
      unfold Window.delete
      refine ⟨hdw, ?_, ?_, ?_, ?_⟩ <;> dsimp only
      · omega
      · omega
      · intro hEx
        obtain ⟨hap, hlen, hcur⟩ := hext hEx
        exact ⟨hap, by omega, by omega⟩
      · intro hEx
        have hlen := hnext hEx
        omega
    · exact ⟨hWF, hc0, hcl, hext, hnext⟩

/-- C4 (amended): the phantom-byte invariant - strengthened with the
cursor bounds and the true-length equation it needs to be inductive - is
preserved by the horizontal cursor motions (`CursorLeft`, `CursorRight`,
`CursorPrev`, `CursorNext` in any mode), by insert-mode rune input, by
`Backspace`, `ExitInsert` and `SwitchFocus`.  It is not preserved by
every event: see the `CursorUp` counterexample. -/
theorem extending_invariant_preserved (e : Event) (w w2 : Window)
    (hw : 0 < w.width) (hinv : ExtInv w)
    (hev : e.type = .cursorLeft ∨ e.type = .cursorRight ∨ e.type = .cursorPrev ∨
      e.type = .cursorNext ∨ (e.type = .rune ∧ e.mode = .insert) ∨ e.type = .backspace ∨
      e.type = .exitInsert ∨ e.type = .switchFocus)
    (hrun : runStep e w = some w2) : ExtInv w2 := by
  have hnp : ¬panics e := by
    rcases hev with h | h | h | h | ⟨h, _⟩ | h | h | h <;> simp [panics, h]
  have hdisp : ExtInv (dispatch e w) := by
    obtain ⟨t, m, c, r, a⟩ := e
    rcases hev with h | h | h | h | ⟨h, hm⟩ | h | h | h <;> simp only at h <;> subst h <;>
      dsimp only [dispatch]
    · exact extInv_cursorLeft w c hw ⟨hinv.1, hinv.2.1, hinv.2.2.1, hinv.2.2.2.1, hinv.2.2.2.2⟩
    · exact extInv_cursorRight w m c hw hinv
    · exact extInv_cursorPrev w c hw hinv
    · exact extInv_cursorNext w m c hw hinv
    · simp only at hm
      subst hm
      exact extInv_insertRune_insert w r hw hinv
    · exact extInv_backspace w hinv
    · exact extInv_exitInsert w hinv
    · obtain ⟨hWF, hc0, hcl, hext, hnext⟩ := hinv
      split
      · exact ⟨hWF, hc0, hcl, hext, hnext⟩
      · exact ⟨hWF, hc0, hcl, hext, hnext⟩
  unfold runStep at hrun
  rw [if_neg hnp] at hrun
  have hw2 := Option.some.inj hrun
  subst hw2
  split
  · exact hdisp
  · split
    · exact hdisp
    · split
      · exact hdisp
      · exact hdisp

theorem extInv_winExt : ExtInv winExt :=
  ⟨by decide, by decide, by decide, fun _ => ⟨rfl, by decide, by decide⟩,
   fun hF => absurd hF (by decide)⟩

/-- Counterexample to C4 as stated: the claim quantifies over every event
the window processes, but a `CursorUp` while extending moves the caret a
row up and leaves `extending` set, so the caret no longer sits on the
phantom byte: the invariant held before the event and fails after it. -/
theorem extending_invariant_cursorUp_counterexample :
    ExtInv winExt ∧ 0 < winExt.width ∧
    (runStep ⟨.cursorUp, .insert, 1, 'x', []⟩ winExt).isSome = true ∧
    ((runStep ⟨.cursorUp, .insert, 1, 'x', []⟩ winExt).getD winExt).extending = true ∧
    ((runStep ⟨.cursorUp, .insert, 1, 'x', []⟩ winExt).getD winExt).cursor ≠
      ((runStep ⟨.cursorUp, .insert, 1, 'x', []⟩ winExt).getD winExt).length - 1 :=
  ⟨extInv_winExt, by decide, by decide, by decide, by decide⟩

/-- Witness for C4 (amended): a `CursorLeft` in insert mode on the
concrete extending window keeps the invariant. -/
theorem extending_invariant_preserved_witness :
    ∃ w2, runStep ⟨.cursorLeft, .insert, 1, 'x', []⟩ winExt = some w2 ∧ ExtInv w2 := by
  have hrun : runStep ⟨.cursorLeft, .insert, 1, 'x', []⟩ winExt =
      some ((runStep ⟨.cursorLeft, .insert, 1, 'x', []⟩ winExt).getD winExt) := by decide
  exact ⟨_, hrun,
    extending_invariant_preserved _ winExt _ (by decide) extInv_winExt (Or.inl rfl) hrun⟩

theorem al_mul (t v : Int) : t * v % v = 0 := by
  rw [mul_comm]
  exact Int.mul_emod_right v t

theorem al_divmul (x v : Int) : x / v * v % v = 0 :=
  al_mul _ v

theorem al_zero (v : Int) : (0 : Int) % v = 0 :=
  Int.zero_emod v

theorem al_sub (a b v : Int) (ha : a % v = 0) (hb : b % v = 0) : (a - b) % v = 0 := by
  rw [Int.sub_emod, ha, hb]
  rfl

theorem al_add (a b v : Int) (ha : a % v = 0) (hb : b % v = 0) : (a + b) % v = 0 := by
  rw [Int.add_emod, ha, hb]
  rfl

theorem al_min (a b v : Int) (ha : a % v = 0) (hb : b % v = 0) : min a b % v = 0 := by
  rcases min_cases a b with ⟨h, _⟩ | ⟨h, _⟩ <;> rw [h] <;> assumption

theorem al_max (a b v : Int) (ha : a % v = 0) (hb : b % v = 0) : max a b % v = 0 := by
  rcases max_cases a b with ⟨h, _⟩ | ⟨h, _⟩ <;> rw [h] <;> assumption

theorem al_submod (x v : Int) : (x - x % v) % v = 0 := by
  have h := Int.ediv_add_emod x v
  have h2 : x - x % v = v * (x / v) := by omega
  rw [h2]
  exact Int.mul_emod_right v (x / v)

theorem auxAligned_scrollWrap (w w1 : Window) (h : AuxAligned w w1) :
    AuxAligned w (if w1.cursor ≥ w1.offset + w1.height * w1.width then
      { w1 with offset := (w1.cursor - w1.height * w1.width + w1.width) / w1.width * w1.width }
    else w1) := by
  obtain ⟨hW, hS, hH, hO⟩ := h
  split
  · exact ⟨hW, hS, hH, by rw [← hW]; exact al_divmul _ _⟩
  · exact ⟨hW, hS, hH, hO⟩

theorem align_cursorUp (w : Window) (count : Int) (h : w.offset % w.width = 0) :
    AuxAligned w (w.cursorUp count) := by
  unfold Window.cursorUp
  dsimp only
  split
  · exact ⟨rfl, rfl, rfl, al_divmul _ _⟩
  · exact ⟨rfl, rfl, rfl, h⟩

theorem align_cursorDown (w : Window) (count : Int) (h : w.offset % w.width = 0) :
    AuxAligned w (w.cursorDown count) := by
  unfold Window.cursorDown
  dsimp only
  split
  · exact ⟨rfl, rfl, rfl, al_divmul _ _⟩
  · exact ⟨rfl, rfl, rfl, h⟩

theorem align_cursorLeft (w : Window) (count : Int) (h : w.offset % w.width = 0) :
    AuxAligned w (w.cursorLeft count) := by
  unfold Window.cursorLeft
  dsimp only
  split
  · split
    · exact ⟨rfl, rfl, rfl, h⟩
    · exact ⟨rfl, rfl, rfl, h⟩
  · exact ⟨rfl, rfl, rfl, h⟩

theorem align_cursorRight (w : Window) (mode : Mode) (count : Int) (h : w.offset % w.width = 0) :
    AuxAligned w (w.cursorRight mode count) := by
  unfold Window.cursorRight
  split
  · exact ⟨rfl, rfl, rfl, h⟩
  · split
    · dsimp only
      split
      · exact ⟨rfl, rfl, rfl, h⟩
      · exact ⟨rfl, rfl, rfl, h⟩
    · exact ⟨rfl, rfl, rfl, h⟩

theorem align_cursorPrev (w : Window) (count : Int) (h : w.offset % w.width = 0) :
    AuxAligned w (w.cursorPrev count) := by
  unfold Window.cursorPrev
  dsimp only
  split <;> split <;> first
    | exact ⟨rfl, rfl, rfl, al_divmul _ _⟩
    | exact ⟨rfl, rfl, rfl, h⟩
    | (split <;> first
        | exact ⟨rfl, rfl, rfl, al_divmul _ _⟩
        | exact ⟨rfl, rfl, rfl, h⟩)

theorem align_cursorNext (w : Window) (mode : Mode) (count : Int) (h : w.offset % w.width = 0) :
    AuxAligned w (w.cursorNext mode count) := by
  unfold Window.cursorNext
  dsimp only
  apply auxAligned_scrollWrap
  split
  · exact ⟨rfl, rfl, rfl, h⟩
  · split
    · split
      · exact ⟨rfl, rfl, rfl, h⟩
      · exact ⟨rfl, rfl, rfl, h⟩
    · exact ⟨rfl, rfl, rfl, h⟩

theorem align_cursorHead (w : Window) (count : Int) (h : w.offset % w.width = 0) :
    AuxAligned w (w.cursorHead count) :=
  ⟨rfl, rfl, rfl, h⟩

theorem align_cursorEnd (w : Window) (count : Int) (h : w.offset % w.width = 0) :
    AuxAligned w (w.cursorEnd count) := by
  unfold Window.cursorEnd
  dsimp only
  split
  · exact ⟨rfl, rfl, rfl, al_divmul _ _⟩
  · exact ⟨rfl, rfl, rfl, h⟩

theorem align_cursorGotoAbs (w : Window) (count : Int) (h : w.offset % w.width = 0) :
    AuxAligned w (w.cursorGotoAbs count) := by
  unfold Window.cursorGotoAbs
  dsimp only
  split
  · exact ⟨rfl, rfl, rfl, al_mul _ _⟩
  · split
    · exact ⟨rfl, rfl, rfl, al_mul _ _⟩
    · exact ⟨rfl, rfl, rfl, h⟩

theorem align_cursorGotoRel (w : Window) (count : Int) (h : w.offset % w.width = 0) :
    AuxAligned w (w.cursorGotoRel count) := by
  unfold Window.cursorGotoRel
  dsimp only
  split
  · exact ⟨rfl, rfl, rfl, al_mul _ _⟩
  · split
    · exact ⟨rfl, rfl, rfl, al_mul _ _⟩
    · exact ⟨rfl, rfl, rfl, h⟩

theorem align_scrollUp (w : Window) (count : Int) (h : w.offset % w.width = 0) :
    AuxAligned w (w.scrollUp count) := by
  unfold Window.scrollUp
  dsimp only
  split
  · exact ⟨rfl, rfl, rfl, al_sub _ _ _ h (al_mul _ _)⟩
  · exact ⟨rfl, rfl, rfl, al_sub _ _ _ h (al_mul _ _)⟩

theorem align_scrollDown (w : Window) (count : Int) (h : w.offset % w.width = 0) :
    AuxAligned w (w.scrollDown count) := by
  unfold Window.scrollDown
  dsimp only
  split
  · exact ⟨rfl, rfl, rfl, al_add _ _ _ h (al_mul _ _)⟩
  · exact ⟨rfl, rfl, rfl, al_add _ _ _ h (al_mul _ _)⟩

theorem align_pageUp (w : Window) (h : w.offset % w.width = 0) :
    AuxAligned w w.pageUp := by
  unfold Window.pageUp
  dsimp only
  have ho : max (w.offset - (w.height - 2) * w.width) 0 % w.width = 0 :=
    al_max _ _ _ (al_sub _ _ _ h (al_mul _ _)) (al_zero _)
  split
  · exact ⟨rfl, rfl, rfl, ho⟩
  · split
    · exact ⟨rfl, rfl, rfl, ho⟩
    · exact ⟨rfl, rfl, rfl, ho⟩

theorem align_pageDown (w : Window) (h : w.offset % w.width = 0) :
    AuxAligned w w.pageDown := by
  unfold Window.pageDown
  dsimp only
  have ho : min (w.offset + (w.height - 2) * w.width)
      (max (((w.length + w.width - 1) / w.width - w.height) * w.width) 0) % w.width = 0 :=
    al_min _ _ _ (al_add _ _ _ h (al_mul _ _)) (al_max _ _ _ (al_mul _ _) (al_zero _))
  split
  · exact ⟨rfl, rfl, rfl, ho⟩
  · split
    · exact ⟨rfl, rfl, rfl, ho⟩
    · exact ⟨rfl, rfl, rfl, ho⟩

theorem align_pageUpHalf (w : Window) (h : w.offset % w.width = 0) :
    AuxAligned w w.pageUpHalf := by
  unfold Window.pageUpHalf
  dsimp only
  have ho : max (w.offset - max (w.height / 2) 1 * w.width) 0 % w.width = 0 :=
    al_max _ _ _ (al_sub _ _ _ h (al_mul _ _)) (al_zero _)
  split
  · exact ⟨rfl, rfl, rfl, ho⟩
  · split
    · exact ⟨rfl, rfl, rfl, ho⟩
    · exact ⟨rfl, rfl, rfl, ho⟩

theorem align_pageDownHalf (w : Window) (h : w.offset % w.width = 0) :
    AuxAligned w w.pageDownHalf := by
  unfold Window.pageDownHalf
  dsimp only
  have ho : min (w.offset + max (w.height / 2) 1 * w.width)
      (max (((w.length + w.width - 1) / w.width - w.height) * w.width) 0) % w.width = 0 :=
    al_min _ _ _ (al_add _ _ _ h (al_mul _ _)) (al_max _ _ _ (al_mul _ _) (al_zero _))
  split
  · exact ⟨rfl, rfl, rfl, ho⟩
  · split
    · exact ⟨rfl, rfl, rfl, ho⟩
    · exact ⟨rfl, rfl, rfl, ho⟩

theorem align_pageTop (w : Window) : AuxAligned w w.pageTop :=
  ⟨rfl, rfl, rfl, al_zero _⟩

theorem align_pageEnd (w : Window) : AuxAligned w w.pageEnd :=
  ⟨rfl, rfl, rfl, al_max _ _ _ (al_mul _ _) (al_zero _)⟩

theorem align_jumpTo (w : Window) (h : w.offset % w.width = 0)
    (hs : ∀ p ∈ w.stack, p.offset % w.width = 0) :
    (w.jumpTo).width = w.width ∧ (w.jumpTo).history = w.history ∧
    (∀ p ∈ (w.jumpTo).stack, p.offset % w.width = 0) ∧
    (w.jumpTo).offset % w.width = 0 := by
  unfold Window.jumpTo
  split
  · exact ⟨rfl, rfl, hs, h⟩
  · split
    · exact ⟨rfl, rfl, hs, h⟩
    · refine ⟨rfl, rfl, ?_, ?_⟩
      · intro p hp
        rcases List.mem_append.mp hp with hp | hp
        · exact hs p hp
        · rcases List.mem_singleton.mp hp with rfl
          exact h
      · exact al_max _ _ _ (al_sub _ _ _ (al_submod _ _) (al_mul _ _)) (al_zero _)

theorem align_jumpBack (w : Window) (h : w.offset % w.width = 0)
    (hs : ∀ p ∈ w.stack, p.offset % w.width = 0) :
    (w.jumpBack).width = w.width ∧ (w.jumpBack).history = w.history ∧
    (∀ p ∈ (w.jumpBack).stack, p.offset % w.width = 0) ∧
    (w.jumpBack).offset % w.width = 0 := by
  unfold Window.jumpBack
  split
  · exact ⟨rfl, rfl, hs, h⟩
  · rename_i p hp
    refine ⟨rfl, rfl, ?_, ?_⟩
    · intro q hq
      exact hs q (List.dropLast_subset _ hq)
    · obtain ⟨hne, rfl⟩ := List.mem_getLast?_eq_getLast (show p ∈ w.stack.getLast? from hp)
      exact hs _ (List.getLast_mem hne)

theorem align_deleteIter (n : Nat) (w : Window) (h : w.offset % w.width = 0) :
    AuxAligned w (deleteIter n w) := by
  induction n generalizing w with
  | zero => exact ⟨rfl, rfl, rfl, h⟩
  | succ n ih =>
    unfold deleteIter
    dsimp only
    split
    · exact ih _ h
    · exact ih _ h

theorem align_deleteByte (w : Window) (count : Int) (h : w.offset % w.width = 0) :
    AuxAligned w (w.deleteByte count) := by
  unfold Window.deleteByte
  split
  · exact ⟨rfl, rfl, rfl, h⟩
  · exact align_deleteIter _ w h

theorem align_deletePrevIter (n : Nat) (w : Window) (h : w.offset % w.width = 0) :
    AuxAligned w (deletePrevIter n w) := by
  induction n generalizing w with
  | zero => exact ⟨rfl, rfl, rfl, h⟩
  | succ n ih => exact ih _ h

theorem align_deletePrevByte (w : Window) (count : Int) (h : w.offset % w.width = 0) :
    AuxAligned w (w.deletePrevByte count) :=
  align_deletePrevIter _ w h

theorem align_increment (w : Window) (count : Int) (h : w.offset % w.width = 0) :
    AuxAligned w (w.increment count) := by
  unfold Window.increment
  split
  · exact ⟨rfl, rfl, rfl, h⟩
  · dsimp only
    split
    · exact ⟨rfl, rfl, rfl, h⟩
    · exact ⟨rfl, rfl, rfl, h⟩

theorem align_decrement (w : Window) (count : Int) (h : w.offset % w.width = 0) :
    AuxAligned w (w.decrement count) := by
  unfold Window.decrement
  split
  · exact ⟨rfl, rfl, rfl, h⟩
  · dsimp only
    split
    · exact ⟨rfl, rfl, rfl, h⟩
    · exact ⟨rfl, rfl, rfl, h⟩

theorem align_startInsert (w : Window) (h : w.offset % w.width = 0) :
    AuxAligned w w.startInsert := by
  unfold Window.startInsert
  dsimp only
  split
  · exact ⟨rfl, rfl, rfl, h⟩
  · exact ⟨rfl, rfl, rfl, h⟩

theorem align_startInsertHead (w : Window) (h : w.offset % w.width = 0) :
    AuxAligned w w.startInsertHead := by
  unfold Window.startInsertHead Window.cursorHead
  dsimp only
  split
  · exact ⟨rfl, rfl, rfl, h⟩
  · exact ⟨rfl, rfl, rfl, h⟩

theorem align_startAppend (w : Window) (h : w.offset % w.width = 0) :
    AuxAligned w w.startAppend := by
  unfold Window.startAppend
  dsimp only
  split <;> split <;> first
    | exact ⟨rfl, rfl, rfl, al_divmul _ _⟩
    | exact ⟨rfl, rfl, rfl, h⟩
    | (split <;> first
        | exact ⟨rfl, rfl, rfl, al_divmul _ _⟩
        | exact ⟨rfl, rfl, rfl, h⟩)

theorem align_startAppendEnd (w : Window) (h : w.offset % w.width = 0) :
    AuxAligned w w.startAppendEnd := by
  unfold Window.startAppendEnd
  obtain ⟨hW, hS, hH, hO⟩ := align_cursorEnd w 0 h
  obtain ⟨hW2, hS2, hH2, hO2⟩ := align_startAppend (w.cursorEnd 0) (by rw [hW]; exact hO)
  exact ⟨by rw [hW2, hW], by rw [hS2, hS], by rw [hH2, hH], by rw [hW] at hO2; exact hO2⟩

theorem align_startReplaceByte (w : Window) (h : w.offset % w.width = 0) :
    AuxAligned w w.startReplaceByte :=
  ⟨rfl, rfl, rfl, h⟩

theorem align_startReplace (w : Window) (h : w.offset % w.width = 0) :
    AuxAligned w w.startReplace :=
  ⟨rfl, rfl, rfl, h⟩

theorem align_exitInsert (w : Window) (h : w.offset % w.width = 0) :
    AuxAligned w w.exitInsert := by
  unfold Window.exitInsert
  dsimp only
  split
  · split <;> split <;> exact ⟨rfl, rfl, rfl, h⟩
  · exact ⟨rfl, rfl, rfl, h⟩

theorem align_backspace (w : Window) (h : w.offset % w.width = 0) :
    AuxAligned w w.backspace := by
  unfold Window.backspace
  split
  · exact ⟨rfl, rfl, rfl, h⟩
  · split
    · exact ⟨rfl, rfl, rfl, h⟩
    · exact ⟨rfl, rfl, rfl, h⟩

theorem auxAligned_trans (w w1 w2 : Window) (h1 : AuxAligned w w1) (h2 : AuxAligned w1 w2) :
    AuxAligned w w2 := by
  obtain ⟨a1, a2, a3, a4⟩ := h1
  obtain ⟨b1, b2, b3, b4⟩ := h2
  refine ⟨b1.trans a1, b2.trans a2, b3.trans a3, ?_⟩
  rw [a1] at b4
  exact b4

theorem align_insertByte (w : Window) (mode : Mode) (b : Nat) (h : w.offset % w.width = 0) :
    AuxAligned w (w.insertByte mode b) := by
  unfold Window.insertByte
  split
  · have hmain : ∀ w1 : Window, AuxAligned w w1 →
        AuxAligned w { (if w1.cursor ≥ w1.offset + w1.height * w1.width then
            { w1 with offset := (w1.cursor - w1.height * w1.width + w1.width) / w1.width * w1.width }
          else w1) with pending := false, pendingByte := 0 } := by
      intro w1 h1
      obtain ⟨hW, hS, hH, hO⟩ := h1
      split
      · exact ⟨hW, hS, hH, by rw [← hW]; exact al_divmul _ _⟩
      · exact ⟨hW, hS, hH, hO⟩
    apply hmain
    rcases mode
    case normal => exact ⟨rfl, rfl, rfl, h⟩
    case cmdline => exact ⟨rfl, rfl, rfl, h⟩
    case insert => exact ⟨rfl, rfl, rfl, h⟩
    case replace =>
      dsimp only
      split
      · split
        · exact align_exitInsert _ h
        · split
          · exact ⟨rfl, rfl, rfl, h⟩
          · exact ⟨rfl, rfl, rfl, h⟩
      · split
        · exact align_exitInsert _ h
        · split
          · exact ⟨rfl, rfl, rfl, h⟩
          · exact ⟨rfl, rfl, rfl, h⟩
  · exact ⟨rfl, rfl, rfl, h⟩

theorem align_insertRune (w : Window) (mode : Mode) (ch : Char) (h : w.offset % w.width = 0) :
    AuxAligned w (w.insertRune mode ch) := by
  unfold Window.insertRune
  split
  · split
    · have hfold : ∀ (bs : List Nat) (w1 : Window), AuxAligned w w1 →
          AuxAligned w (bs.foldl
            (fun acc b => (acc.insertByte mode (b >>> 4)).insertByte mode (b &&& 0x0f)) w1) := by
        intro bs
        induction bs with
        | nil => exact fun w1 h1 => h1
        | cons b rest ih =>
          intro w1 h1
          simp only [List.foldl_cons]
          have s1 := align_insertByte w1 mode (b >>> 4) (by rw [h1.1]; exact h1.2.2.2)
          have h1' := auxAligned_trans w w1 _ h1 s1
          have s2 := align_insertByte _ mode (b &&& 0x0f) (by rw [h1'.1]; exact h1'.2.2.2)
          exact ih _ (auxAligned_trans w _ _ h1' s2)
      exact hfold _ w ⟨rfl, rfl, rfl, h⟩
    · split
      · exact align_insertByte w mode _ h
      · split
        · exact align_insertByte w mode _ h
        · exact ⟨rfl, rfl, rfl, h⟩
  · exact ⟨rfl, rfl, rfl, h⟩

theorem align_searchForward (w : Window) (target : List Nat) (h : w.offset % w.width = 0) :
    AuxAligned w (w.searchForward target) := by
  unfold Window.searchForward
  dsimp only
  split
  · exact ⟨rfl, rfl, rfl, h⟩
  · split
    · exact ⟨rfl, rfl, rfl, h⟩
    · split
      · exact ⟨rfl, rfl, rfl, al_divmul _ _⟩
      · exact ⟨rfl, rfl, rfl, h⟩

theorem align_searchBackward (w : Window) (target : List Nat) (h : w.offset % w.width = 0) :
    AuxAligned w (w.searchBackward target) := by
  unfold Window.searchBackward
  dsimp only
  split
  · exact ⟨rfl, rfl, rfl, h⟩
  · split
    · exact ⟨rfl, rfl, rfl, h⟩
    · split
      · exact ⟨rfl, rfl, rfl, al_divmul _ _⟩
      · exact ⟨rfl, rfl, rfl, h⟩

theorem align_search (w : Window) (target : List Nat) (forward : Bool) (h : w.offset % w.width = 0) :
    AuxAligned w (w.search target forward) := by
  unfold Window.search
  split
  · exact align_searchForward w target h
  · exact align_searchBackward w target h

theorem history_undo_facts (h : History) (en : HEntry) (h2 : History)
    (heq : h.undo = (some en, h2)) :
    en ∈ h.entries ∧ h2.entries = h.entries := by
  unfold History.undo at heq
  split at heq
  · split at heq
    · rename_i en2 hget
      injection heq with ha hb
      injection ha with ha
      subst ha
      subst hb
      exact ⟨List.getElem?_mem hget, rfl⟩
    · injection heq with ha hb
      exact absurd ha (by simp)
  · injection heq with ha hb
    exact absurd ha (by simp)

theorem history_redo_facts (h : History) (en : HEntry) (h2 : History)
    (heq : h.redo = (some en, h2)) :
    en ∈ h.entries ∧ h2.entries = h.entries := by
  unfold History.redo at heq
  split at heq
  · rename_i en2 hget
    injection heq with ha hb
    injection ha with ha
    subst ha
    subst hb
    exact ⟨List.getElem?_mem hget, rfl⟩
  · injection heq with ha hb
    exact absurd ha (by simp)

theorem align_undoIter (n : Nat) (w : Window) (h : w.offset % w.width = 0)
    (hh : ∀ en ∈ w.history.entries, en.offset % w.width = 0) :
    (undoIter n w).width = w.width ∧ (undoIter n w).stack = w.stack ∧
    (undoIter n w).history.entries = w.history.entries ∧
    (undoIter n w).offset % w.width = 0 := by
  induction n generalizing w with
  | zero => exact ⟨rfl, rfl, rfl, h⟩
  | succ n ih =>
    unfold undoIter
    split
    · exact ⟨rfl, rfl, rfl, h⟩
    · rename_i en h2 heq
      obtain ⟨hmem, hent⟩ := history_undo_facts w.history en h2 heq
      have hres := ih { w with buffer := en.buffer, offset := en.offset, cursor := en.cursor,
                               length := en.buffer.len, history := h2 }
        (hh en hmem) (by dsimp only; rw [hent]; exact hh)
      refine ⟨hres.1, hres.2.1, ?_, hres.2.2.2⟩
      rw [hres.2.2.1]
      exact hent

theorem align_redoIter (n : Nat) (w : Window) (h : w.offset % w.width = 0)
    (hh : ∀ en ∈ w.history.entries, en.offset % w.width = 0) :
    (redoIter n w).width = w.width ∧ (redoIter n w).stack = w.stack ∧
    (redoIter n w).history.entries = w.history.entries ∧
    (redoIter n w).offset % w.width = 0 := by
  induction n generalizing w with
  | zero => exact ⟨rfl, rfl, rfl, h⟩
  | succ n ih =>
    unfold redoIter
    split
    · exact ⟨rfl, rfl, rfl, h⟩
    · rename_i en h2 heq
      obtain ⟨hmem, hent⟩ := history_redo_facts w.history en h2 heq
      have hres := ih { w with buffer := en.buffer, offset := en.offset, cursor := en.cursor,
                               length := en.buffer.len, history := h2 }
        (hh en hmem) (by dsimp only; rw [hent]; exact hh)
      refine ⟨hres.1, hres.2.1, ?_, hres.2.2.2⟩
      rw [hres.2.2.1]
      exact hent

theorem align_setSize (w : Window) (W H : Int) :
    (w.setSize W H).width = W ∧ (w.setSize W H).stack = w.stack ∧
    (w.setSize W H).history = w.history ∧ (w.setSize W H).offset % W = 0 := by
  unfold Window.setSize
  dsimp only
  split
  · exact ⟨rfl, rfl, rfl, al_min _ _ _ (al_divmul _ _) (al_divmul _ _)⟩
  · exact ⟨rfl, rfl, rfl, al_min _ _ _ (al_divmul _ _) (al_divmul _ _)⟩

theorem alignInv_of_parts (w w2 : Window)
    (hW : w2.width = w.width)
    (hO : w2.offset % w.width = 0)
    (hS : ∀ p ∈ w2.stack, p.offset % w.width = 0)
    (hH : ∀ en ∈ w2.history.entries, en.offset % w.width = 0) :
    AlignInv w2 := by
  unfold AlignInv
  rw [hW]
  exact ⟨hO, hS, hH⟩

theorem auxAligned_to_facts (w w1 : Window)
    (hS : ∀ p ∈ w.stack, p.offset % w.width = 0)
    (hH : ∀ en ∈ w.history.entries, en.offset % w.width = 0)
    (h : AuxAligned w w1) :
    w1.width = w.width ∧ (∀ p ∈ w1.stack, p.offset % w.width = 0) ∧
    (∀ en ∈ w1.history.entries, en.offset % w.width = 0) ∧ w1.offset % w.width = 0 := by
  obtain ⟨a1, a2, a3, a4⟩ := h
  exact ⟨a1, by rw [a2]; exact hS, by rw [a3]; exact hH, a4⟩

theorem push_entries_aligned (w : Window) (h : History) (b : Buffer) (off cur : Int)
    (hH : ∀ en ∈ h.entries, en.offset % w.width = 0) (hoff : off % w.width = 0) :
    ∀ en ∈ (h.push b off cur).entries, en.offset % w.width = 0 := by
  intro en hen
  unfold History.push at hen
  dsimp only at hen
  rcases List.mem_append.mp hen with hen | hen
  · exact hH en (List.mem_of_mem_take hen)
  · rcases List.mem_singleton.mp hen with rfl
    exact hoff

theorem dispatch_align_facts (e : Event) (w : Window)
    (hO : w.offset % w.width = 0)
    (hS : ∀ p ∈ w.stack, p.offset % w.width = 0)
    (hH : ∀ en ∈ w.history.entries, en.offset % w.width = 0) :
    (dispatch e w).width = w.width ∧
    (∀ p ∈ (dispatch e w).stack, p.offset % w.width = 0) ∧
    (∀ en ∈ (dispatch e w).history.entries, en.offset % w.width = 0) ∧
    (dispatch e w).offset % w.width = 0 := by
  obtain ⟨t, m, c, r, a⟩ := e
  rcases t <;> dsimp only [dispatch]
  case cursorUp => exact auxAligned_to_facts w _ hS hH (align_cursorUp w c hO)
  case cursorDown => exact auxAligned_to_facts w _ hS hH (align_cursorDown w c hO)
  case cursorLeft => exact auxAligned_to_facts w _ hS hH (align_cursorLeft w c hO)
  case cursorRight => exact auxAligned_to_facts w _ hS hH (align_cursorRight w m c hO)
  case cursorPrev => exact auxAligned_to_facts w _ hS hH (align_cursorPrev w c hO)
  case cursorNext => exact auxAligned_to_facts w _ hS hH (align_cursorNext w m c hO)
  case cursorHead => exact auxAligned_to_facts w _ hS hH (align_cursorHead w c hO)
  case cursorEnd => exact auxAligned_to_facts w _ hS hH (align_cursorEnd w c hO)
  case cursorGotoAbs => exact auxAligned_to_facts w _ hS hH (align_cursorGotoAbs w c hO)
  case cursorGotoRel => exact auxAligned_to_facts w _ hS hH (align_cursorGotoRel w c hO)
  case scrollUp => exact auxAligned_to_facts w _ hS hH (align_scrollUp w c hO)
  case scrollDown => exact auxAligned_to_facts w _ hS hH (align_scrollDown w c hO)
  case pageUp => exact auxAligned_to_facts w _ hS hH (align_pageUp w hO)
  case pageDown => exact auxAligned_to_facts w _ hS hH (align_pageDown w hO)
  case pageUpHalf => exact auxAligned_to_facts w _ hS hH (align_pageUpHalf w hO)
  case pageDownHalf => exact auxAligned_to_facts w _ hS hH (align_pageDownHalf w hO)
  case pageTop => exact auxAligned_to_facts w _ hS hH (align_pageTop w)
  case pageEnd => exact auxAligned_to_facts w _ hS hH (align_pageEnd w)
  case jumpTo =>
    obtain ⟨a1, a2, a3, a4⟩ := align_jumpTo w hO hS
    exact ⟨a1, a3, by rw [a2]; exact hH, a4⟩
  case jumpBack =>
    obtain ⟨a1, a2, a3, a4⟩ := align_jumpBack w hO hS
    exact ⟨a1, a3, by rw [a2]; exact hH, a4⟩
  case deleteByte => exact auxAligned_to_facts w _ hS hH (align_deleteByte w c hO)
  case deletePrevByte => exact auxAligned_to_facts w _ hS hH (align_deletePrevByte w c hO)
  case increment => exact auxAligned_to_facts w _ hS hH (align_increment w c hO)
  case decrement => exact auxAligned_to_facts w _ hS hH (align_decrement w c hO)
  case startInsert => exact auxAligned_to_facts w _ hS hH (align_startInsert w hO)
  case startInsertHead => exact auxAligned_to_facts w _ hS hH (align_startInsertHead w hO)
  case startAppend => exact auxAligned_to_facts w _ hS hH (align_startAppend w hO)
  case startAppendEnd => exact auxAligned_to_facts w _ hS hH (align_startAppendEnd w hO)
  case startReplaceByte => exact auxAligned_to_facts w _ hS hH (align_startReplaceByte w hO)
  case startReplace => exact auxAligned_to_facts w _ hS hH (align_startReplace w hO)
  case exitInsert => exact auxAligned_to_facts w _ hS hH (align_exitInsert w hO)
  case rune => exact auxAligned_to_facts w _ hS hH (align_insertRune w m r hO)
  case backspace => exact auxAligned_to_facts w _ hS hH (align_backspace w hO)
  case delete => exact auxAligned_to_facts w _ hS hH (align_deleteByte w 1 hO)
  case switchFocus =>
    split
    · exact ⟨rfl, hS, hH, hO⟩
    · exact ⟨rfl, hS, hH, hO⟩
  case undo =>
    obtain ⟨a1, a2, a3, a4⟩ := align_undoIter (max c 1).toNat w hO hH
    unfold Window.undo
    exact ⟨a1, by rw [a2]; exact hS, by rw [a3]; exact hH, a4⟩
  case redo =>
    obtain ⟨a1, a2, a3, a4⟩ := align_redoIter (max c 1).toNat w hO hH
    unfold Window.redo
    exact ⟨a1, by rw [a2]; exact hS, by rw [a3]; exact hH, a4⟩
  case executeSearch => exact auxAligned_to_facts w _ hS hH (align_search w a (r = Char.ofNat 47) hO)
  case nextSearch => exact auxAligned_to_facts w _ hS hH (align_search w a (r = Char.ofNat 47) hO)
  case previousSearch => exact auxAligned_to_facts w _ hS hH (align_search w a (r ≠ Char.ofNat 47) hO)

/-- C8 (amended): the alignment invariant - strengthened with the
requirement, which any run under a fixed width maintains, that the saved
offsets on the jump stack and in the history are aligned too - is
preserved by every event the window processes, and `setSize`
unconditionally re-aligns the offset to the new width (and preserves the
whole invariant when the width is unchanged).  The claim as stated, with
only the current offset assumed aligned, fails on `JumpBack`: see the
counterexample. -/
theorem offset_multiple_of_width :
    (∀ (e : Event) (w w2 : Window), AlignInv w → runStep e w = some w2 →
      AlignInv w2 ∧ w2.width = w.width) ∧
    (∀ (w : Window) (W H : Int), (w.setSize W H).offset % (w.setSize W H).width = 0) ∧
    (∀ (w : Window) (H : Int), AlignInv w → AlignInv (w.setSize w.width H)) := by
  refine ⟨fun e w w2 hinv hrun => ?_, fun w W H => ?_, fun w H hinv => ?_⟩
  · obtain ⟨hO, hS, hH⟩ := hinv
    obtain ⟨hW1, hS1, hH1, hO1⟩ := dispatch_align_facts e w hO hS hH
    unfold runStep at hrun
    split at hrun
    · exact absurd hrun (by simp)
    · have hw2 := Option.some.inj hrun
      subst hw2
      constructor
      · split
        · exact alignInv_of_parts w _ hW1 hO1 hS1 hH1
        · split
          · exact alignInv_of_parts w _ hW1 hO1 hS1
              (push_entries_aligned w _ _ _ _ hH1 hO1)
          · split
            · exact alignInv_of_parts w _ hW1 hO1 hS1
                (push_entries_aligned w _ _ _ _ hH1 hO)
            · exact alignInv_of_parts w _ hW1 hO1 hS1 hH1
      · split
        · exact hW1
        · split
          · exact hW1
          · split
            · exact hW1
            · exact hW1
  · obtain ⟨a1, a2, a3, a4⟩ := align_setSize w W H
    rw [a1]
    exact a4
  · obtain ⟨a1, a2, a3, a4⟩ := align_setSize w w.width H
    refine alignInv_of_parts w _ a1 a4 ?_ ?_
    · rw [a2]
      exact hinv.2.1
    · rw [a3]
      exact hinv.2.2

/-- Counterexample to C8 as stated: the offset is aligned before the
`JumpBack` event and the width is unchanged by it, yet the restored
offset 7 is not a multiple of the width 16. -/
theorem offset_alignment_jumpBack_counterexample :
    winMis.offset % winMis.width = 0 ∧
    (runStep ⟨.jumpBack, .normal, 1, 'x', []⟩ winMis).isSome = true ∧
    ((runStep ⟨.jumpBack, .normal, 1, 'x', []⟩ winMis).getD winMis).width = winMis.width ∧
    ((runStep ⟨.jumpBack, .normal, 1, 'x', []⟩ winMis).getD winMis).offset %
      ((runStep ⟨.jumpBack, .normal, 1, 'x', []⟩ winMis).getD winMis).width ≠ 0 := by
  refine ⟨by decide, by decide, by decide, by decide⟩

/-- Witness for C8 (amended): a `CursorDown` on the concrete aligned
window keeps the invariant. -/
theorem offset_multiple_of_width_witness :
    ∃ w2, runStep ⟨.cursorDown, .normal, 1, 'x', []⟩ win0 = some w2 ∧ AlignInv w2 := by
  have hinv : AlignInv win0 := by
    refine ⟨by decide, ?_, ?_⟩
    · intro p hp
      exact absurd hp (List.not_mem_nil p)
    · intro en hen
      rcases List.mem_singleton.mp hen with rfl
      decide
  have hrun : runStep ⟨.cursorDown, .normal, 1, 'x', []⟩ win0 =
      some ((runStep ⟨.cursorDown, .normal, 1, 'x', []⟩ win0).getD win0) := by decide
  exact ⟨_, hrun, (offset_multiple_of_width.1 _ win0 _ hinv hrun).1⟩

end Bed
